import Mathlib

/-!
# ecl_quantile: ensemble bounds, time axis, key parsing and the row cache

A shallow embedding of `devel/libecl/applications/ecl_quantile.c`.

Conventions of the embedding

* `time_t` is the 64-bit signed integer of the platform: a value is an `Int` in
  the range of `is_time_t`, and the subtraction, the product and the sum of
  line 105 are taken modulo 2^64 (`time_t_wrap`).  Comparisons, minimum and
  maximum are exact.  The `int` values (`i`, `num_interp`) stay within 32 bits
  by their type, and `num_interp - 1` does not overflow when the loop runs.
  The C division of two integers is `Int.tdiv` (rounding towards zero) and a
  zero divisor is the failure `division_by_zero`.
* a C string (`const char *`) is its list of characters.
* `double` values are never computed on by the code modelled here, they are only
  moved around, so the sample type `V` and the quantile-level type `Q` are
  parameters.  Where a value has to be computed (the empirical quantile of the
  specification, the worked examples) samples and levels are exact rationals.
* the libraries the program links against (`ecl_sum`, `glob`, `config`,
  `statistics`, `util`) are parameters or are modelled from the specification;
  each such definition says so.
* `util_exit`, `util_abort` and undefined operations end the run; they are the
  `Except.error` results of the embedding.
-/

namespace EclQuantile

/-- A C string, as the list of its characters. -/
abbrev cstring := List Char

/-- The ways a run of the program can stop early. -/
inductive failure where
  /-- Line 161: `util_exit` with fewer than ten realizations. -/
  | too_few_realizations
  /-- Line 509: `util_exit`, the key has a single token. -/
  | malformed_key (key : cstring)
  /-- Line 513: `util_exit`, the last token is not read as a double. -/
  | not_a_quantile (token : cstring)
  /-- Line 105: the divisor `num_interp - 1` is zero. -/
  | division_by_zero
  /-- An access outside a vector, an array or the keys of a hash. -/
  | invalid_index
  /-- Line 189: `util_abort`, the format string is none of the three. -/
  | unrecognized_format (format_string : cstring)
  /-- The quantile of an empty sample set: "no run covers this timestamp for
      this variable". -/
  | no_run_covers
  deriving DecidableEq, Repr

/-- The functions of the `ecl_sum` library used by the program: loading a
    summary case and querying it.  They are parameters of the embedding. -/
structure ecl_sum_lib (S V : Type) where
  ecl_sum_fread_alloc_case : cstring → S
  ecl_sum_get_start_time : S → Int
  ecl_sum_get_end_time : S → Int
  ecl_sum_get_general_var_from_sim_time : S → Int → cstring → V

/-- Lines 24-30.  The fields `interp_data` (allocated empty, never used again)
    and `interp_time` (a pointer to the vector of the ensemble) carry no
    information of their own and are left out. -/
structure sum_case_type (S : Type) where
  ecl_sum : S
  start_time : Int
  end_time : Int
  deriving DecidableEq, Repr

/-- Lines 41-48. -/
structure ensemble_type (S : Type) where
  data : List (sum_case_type S)
  interp_time : List Int
  num_interp : Int
  start_time : Int
  end_time : Int
  refcase : Option S
  deriving DecidableEq, Repr

/-- Line 12. -/
def DEFAULT_NUM_INTERP : Int := 50

/-- Line 13, the string ":". -/
def SUMMARY_JOIN : cstring := [':']

/-- Modelled from the spec: `util_time_t_min` of libutil is the smaller of two
    timestamps ("start_time (min ...)"). -/
def util_time_t_min (a b : Int) : Int := min a b

/-- Modelled from the spec: `util_time_t_max` of libutil is the larger of two
    timestamps ("end_time (max across all runs seen so far)"). -/
def util_time_t_max (a b : Int) : Int := max a b

/-- Lines 61-71. -/
def sum_case_fread_alloc {S V : Type} (lib : ecl_sum_lib S V) (data_file : cstring) :
    sum_case_type S :=
  let ecl_sum := lib.ecl_sum_fread_alloc_case data_file
  { ecl_sum := ecl_sum
    start_time := lib.ecl_sum_get_start_time ecl_sum
    end_time := lib.ecl_sum_get_end_time ecl_sum }

/-- Lines 89-98. -/
def ensemble_add_case {S V : Type} (lib : ecl_sum_lib S V) (ensemble : ensemble_type S)
    (data_file : cstring) : ensemble_type S :=
  let sum_case := sum_case_fread_alloc lib data_file
  let ensemble := { ensemble with data := ensemble.data ++ [sum_case] }
  let ensemble :=
    if ensemble.start_time > 0 then
      { ensemble with start_time := util_time_t_min ensemble.start_time sum_case.start_time }
    else
      { ensemble with start_time := lib.ecl_sum_get_start_time sum_case.ecl_sum }
  { ensemble with end_time := util_time_t_max ensemble.end_time sum_case.end_time }

/-- The values of a 64-bit `time_t`: from -2^63 up to 2^63 - 1. -/
def is_time_t (x : Int) : Prop := -9223372036854775808 ≤ x ∧ x < 9223372036854775808

instance (x : Int) : Decidable (is_time_t x) := by
  unfold is_time_t
  infer_instance

/-- The `time_t` that holds the result of an arithmetic operation whose exact
    value is `x`: the representative of `x` modulo 2^64 between -2^63 and
    2^63 - 1. -/
def time_t_wrap (x : Int) : Int :=
  (x + 9223372036854775808) % 18446744073709551616 - 9223372036854775808

/-- The C expression `a / b` on integers.  The divisor of line 105 is
    `num_interp - 1`, which is never negative when the loop runs, so the quotient
    of a `time_t` by it is a `time_t`. -/
def time_t_div (a b : Int) : Except failure Int :=
  if b = 0 then .error .division_by_zero else .ok (Int.tdiv a b)

/-- Line 105, the body of the loop for one value of `i`:
    `start_time + i * (end_time - start_time) / (num_interp - 1)` in `time_t`
    arithmetic. -/
def ensemble_init_time_interp_step {S : Type} (ensemble : ensemble_type S) (i : Nat) :
    Except failure (ensemble_type S) :=
  match time_t_div
      (time_t_wrap ((i : Int) * time_t_wrap (ensemble.end_time - ensemble.start_time)))
      (ensemble.num_interp - 1) with
  | .error f => .error f
  | .ok q =>
    .ok { ensemble with
      interp_time := ensemble.interp_time ++ [time_t_wrap (ensemble.start_time + q)] }

/-- Lines 102-106: `i` runs over `0 .. num_interp - 1` (no value when
    `num_interp <= 0`). -/
def ensemble_init_time_interp {S : Type} (ensemble : ensemble_type S) :
    Except failure (ensemble_type S) :=
  (List.range ensemble.num_interp.toNat).foldlM ensemble_init_time_interp_step ensemble

/-- Lines 110-119; `glob` is the parameter that expands a pattern to the paths
    it matches. -/
def ensemble_load_from_glob {S V : Type} (lib : ecl_sum_lib S V) (glob : cstring → List cstring)
    (ensemble : ensemble_type S) (pattern : cstring) : ensemble_type S :=
  (glob pattern).foldl (ensemble_add_case lib) ensemble

/-- Lines 123-133; `refcase` is not yet set. -/
def ensemble_alloc {S : Type} : ensemble_type S :=
  { num_interp := DEFAULT_NUM_INTERP
    start_time := -1
    end_time := -1
    data := []
    interp_time := []
    refcase := none }

/-- The parsed configuration, as the program reads it through the `config`
    library: the occurrences of CASE_LIST, the value of NUM_INTERP when the item
    is set, the occurrences of OUTPUT. -/
structure config_type where
  CASE_LIST : List (List cstring)
  NUM_INTERP : Option Int
  OUTPUT : List (List cstring)

/-- Modelled from the spec: `vector_iget_const` of libutil, which is not part of
    the sources at hand, on the "ordered collection of Runs": the element at an
    index.  Outside the collection there is no element to return and the run
    ends there. -/
def vector_iget_const {α : Type} (vector : List α) (index : Nat) : Except failure α :=
  match vector.get? index with
  | some x => .ok x
  | none => .error .invalid_index

/-- Lines 140-147, the loading of the cases. -/
def ensemble_init_load {S V : Type} (lib : ecl_sum_lib S V) (glob : cstring → List cstring)
    (ensemble : ensemble_type S) (config : config_type) : ensemble_type S :=
  config.CASE_LIST.foldl
    (fun ensemble case_list => case_list.foldl (ensemble_load_from_glob lib glob) ensemble)
    ensemble

/-- Lines 136-162. -/
def ensemble_init {S V : Type} (lib : ecl_sum_lib S V) (glob : cstring → List cstring)
    (ensemble : ensemble_type S) (config : config_type) : Except failure (ensemble_type S) :=
  let ensemble := ensemble_init_load lib glob ensemble config
  match vector_iget_const ensemble.data 0 with
  | .error f => .error f
  | .ok tmp =>
    let ensemble := { ensemble with refcase := some tmp.ecl_sum }
    let ensemble :=
      match config.NUM_INTERP with
      | some n => { ensemble with num_interp := n }
      | none => ensemble
    match ensemble_init_time_interp ensemble with
    | .error f => .error f
    | .ok ensemble =>
      if ensemble.data.length < 10 then .error .too_few_realizations else .ok ensemble

/-! ## The output side -/

/-- Lines 17-21. -/
inductive format_type where
  | S3GRAPH
  | HEADER
  | PLAIN
  deriving DecidableEq, Repr

/-- Lines 33-37. -/
structure output_type where
  keys : List cstring
  file : cstring
  format : format_type
  deriving DecidableEq, Repr

/-- Modelled from the spec: `util_split_string` of libutil, which is not part of
    the sources at hand.  The specification speaks of the ":"-delimited
    segments of a token; the segments of `line` are the maximal pieces between
    the characters of `sep_set`. -/
def util_split_string (line sep_set : cstring) : List cstring :=
  line.splitOnP (fun c => decide (c ∈ sep_set))

/-- Modelled from the spec: `util_alloc_joined_string` of libutil, which is not
    part of the sources at hand ("everything before it is rejoined as the
    key"): the first `len` items joined with `sep` between them. -/
def util_alloc_joined_string (item_list : List cstring) (len : Nat) (sep : cstring) : cstring :=
  sep.intercalate (item_list.take len)

/-- Lines 501-516, the reading of one `KEY:QUANTILE` token.  The function
    `util_sscanf_double` of libutil is a parameter: `none` is its `false`,
    `some q` is `true` with `q` stored.  With no token at all, `tmp[tokens - 1]`
    lies outside the array. -/
def output_run_line_parse_key {Q : Type} (util_sscanf_double : cstring → Option Q)
    (key : cstring) : Except failure (cstring × Q) :=
  let tmp := util_split_string key SUMMARY_JOIN
  let tokens := tmp.length
  if tokens = 1 then .error (.malformed_key key)
  else
    let sum_key := util_alloc_joined_string tmp (tokens - 1) SUMMARY_JOIN
    match tmp.get? (tokens - 1) with
    | none => .error .invalid_index
    | some last =>
      match util_sscanf_double last with
      | none => .error (.not_a_quantile last)
      | some quantile => .ok (sum_key, quantile)

/-- Lines 500-518, one turn of the loop over the keys: the key is read and
    appended to `sum_keys`, its level to `quantiles`. -/
def output_run_line_parse_step {Q : Type} (util_sscanf_double : cstring → Option Q)
    (acc : List cstring × List Q) (key : cstring) : Except failure (List cstring × List Q) :=
  match output_run_line_parse_key util_sscanf_double key with
  | .error f => .error f
  | .ok (sum_key, quantile) => .ok (acc.1 ++ [sum_key], acc.2 ++ [quantile])

/-- Lines 499-519, the loop over the keys of the output: the pair of vectors
    `sum_keys` and `quantiles`, filled in step. -/
def output_run_line_parse_keys {Q : Type} (util_sscanf_double : cstring → Option Q)
    (keys : List cstring) : Except failure (List cstring × List Q) :=
  keys.foldlM (output_run_line_parse_step util_sscanf_double) ([], [])

/-- Modelled from the spec: the `hash_type` of libutil, which is not part of the
    sources at hand, as it is used for the SampleCache ("per-VariableKey set of
    collected run values"): a finite map from summary keys to sample vectors. -/
abbrev hash_type (V : Type) := cstring → Option (List V)

/-- Modelled from the spec: `hash_alloc` of libutil, an empty table. -/
def hash_alloc {V : Type} : hash_type V := fun _ => none

/-- Modelled from the spec: `hash_has_key` of libutil, whether a key is bound
    ("not yet cached for this row"). -/
def hash_has_key {V : Type} (hash : hash_type V) (key : cstring) : Bool := (hash key).isSome

/-- Modelled from the spec: `hash_insert_hash_owned_ref` of libutil, binding
    `key` to `value`.  The table holds pointers, so a vector changed through the
    pointer obtained from `hash_get` is changed in the table: the embedding binds
    the key to the new contents with this same function. -/
def hash_insert_hash_owned_ref {V : Type} (hash : hash_type V) (key : cstring) (value : List V) :
    hash_type V :=
  fun k => if k = key then some value else hash k

/-- Modelled from the spec: `hash_get` of libutil, the vector bound to a key;
    for an unbound key there is none and the run ends there. -/
def hash_get {V : Type} (hash : hash_type V) (key : cstring) : Except failure (List V) :=
  match hash key with
  | some v => .ok v
  | none => .error .invalid_index

/-- Modelled from the spec: `hash_apply` of libutil, which applies a function
    to every vector of the table ("discard (reset) all cached sample sets"). -/
def hash_apply {V : Type} (hash : hash_type V) (func : List V → List V) : hash_type V :=
  fun k => (hash k).map func

/-- Modelled from the spec: `double_vector_reset__` of libutil, which sets the
    size of a vector to zero. -/
def double_vector_reset__ {V : Type} (_vector : List V) : List V := []

/-- Lines 544-548: every case of the ensemble, in order, appends its value at
    `interp_time` when `interp_time` lies in its range. -/
def output_run_line_fill {S V : Type} (lib : ecl_sum_lib S V) (data : List (sum_case_type S))
    (interp_time : Int) (sum_key : cstring) (interp_data : List V) : List V :=
  data.foldl
    (fun interp_data sum_case =>
      if interp_time ≥ sum_case.start_time ∧ interp_time ≤ sum_case.end_time then
        interp_data ++
          [lib.ecl_sum_get_general_var_from_sim_time sum_case.ecl_sum interp_time sum_key]
      else interp_data)
    interp_data

/-- Lines 530-550, one cell.  The function `statistics_empirical_quantile` of
    libutil is a parameter; it receives the vector by pointer, so it yields the
    value together with the contents it leaves in the vector, or it stops the
    run. -/
def output_run_line_cell {S V Q : Type} (lib : ecl_sum_lib S V)
    (statistics_empirical_quantile : List V → Q → Except failure (V × List V))
    (data : List (sum_case_type S)) (interp_time : Int)
    (interp_data_cache : hash_type V) (sum_key : cstring) (quantile : Q) :
    Except failure (hash_type V × V) :=
  let interp_data_cache :=
    if !hash_has_key interp_data_cache sum_key then
      hash_insert_hash_owned_ref interp_data_cache sum_key []
    else interp_data_cache
  match hash_get interp_data_cache sum_key with
  | .error f => .error f
  | .ok interp_data =>
    let interp_data :=
      if interp_data.length = 0 then
        output_run_line_fill lib data interp_time sum_key interp_data
      else interp_data
    match statistics_empirical_quantile interp_data quantile with
    | .error f => .error f
    | .ok (value, interp_data) =>
      .ok (hash_insert_hash_owned_ref interp_data_cache sum_key interp_data, value)

/-- Lines 529-551, one column of a row: the cell is computed and stored in
    `data[row_nr][column_nr]`. -/
def output_run_line_column {S V Q : Type} (lib : ecl_sum_lib S V)
    (statistics_empirical_quantile : List V → Q → Except failure (V × List V))
    (data : List (sum_case_type S)) (interp_time : Int)
    (st : hash_type V × List V) (column : cstring × Q) :
    Except failure (hash_type V × List V) :=
  match output_run_line_cell lib statistics_empirical_quantile data interp_time
      st.1 column.1 column.2 with
  | .error f => .error f
  | .ok (cache, value) => .ok (cache, st.2 ++ [value])

/-- Lines 528-552, one row: the cells in column order, then the reset of every
    cached vector. -/
def output_run_line_row {S V Q : Type} (lib : ecl_sum_lib S V)
    (statistics_empirical_quantile : List V → Q → Except failure (V × List V))
    (data : List (sum_case_type S)) (columns : List (cstring × Q))
    (interp_data_cache : hash_type V) (interp_time : Int) :
    Except failure (hash_type V × List V) :=
  match columns.foldlM
      (output_run_line_column lib statistics_empirical_quantile data interp_time)
      (interp_data_cache, []) with
  | .error f => .error f
  | .ok (cache, row) => .ok (hash_apply cache double_vector_reset__, row)

/-- Lines 527-553, one turn of the loop over the rows. -/
def output_run_line_rows_step {S V Q : Type} (lib : ecl_sum_lib S V)
    (statistics_empirical_quantile : List V → Q → Except failure (V × List V))
    (data : List (sum_case_type S)) (columns : List (cstring × Q))
    (st : hash_type V × List (List V)) (interp_time : Int) :
    Except failure (hash_type V × List (List V)) :=
  match output_run_line_row lib statistics_empirical_quantile data columns st.1 interp_time with
  | .error f => .error f
  | .ok (cache, row) => .ok (cache, st.2 ++ [row])

/-- Lines 524-555, the main loop over the rows, from an empty cache; the result
    is the matrix `data`, one list per row. -/
def output_run_line_main {S V Q : Type} (lib : ecl_sum_lib S V)
    (statistics_empirical_quantile : List V → Q → Except failure (V × List V))
    (ensemble : ensemble_type S) (sum_keys : List cstring) (quantiles : List Q) :
    Except failure (List (List V)) :=
  match ensemble.interp_time.foldlM
      (output_run_line_rows_step lib statistics_empirical_quantile ensemble.data
        (sum_keys.zip quantiles))
      (hash_alloc, []) with
  | .error f => .error f
  | .ok (_, data) => .ok data

/-- Lines 479-557: the keys are read, then the matrix is computed; the result is
    what is handed to `output_save`. -/
def output_run_line {S V Q : Type} (lib : ecl_sum_lib S V)
    (util_sscanf_double : cstring → Option Q)
    (statistics_empirical_quantile : List V → Q → Except failure (V × List V))
    (output : output_type) (ensemble : ensemble_type S) :
    Except failure (List cstring × List Q × List (List V)) :=
  match output_run_line_parse_keys util_sscanf_double output.keys with
  | .error f => .error f
  | .ok (sum_keys, quantiles) =>
    match output_run_line_main lib statistics_empirical_quantile ensemble sum_keys quantiles with
    | .error f => .error f
    | .ok data => .ok (sum_keys, quantiles, data)

/-! ## The uncached computation, following the specification -/

/-- The sample set of `(sum_key, interp_time)` built afresh from all runs. -/
def fresh_sample_set {S V : Type} (lib : ecl_sum_lib S V) (data : List (sum_case_type S))
    (interp_time : Int) (sum_key : cstring) : List V :=
  output_run_line_fill lib data interp_time sum_key []

/-- One cell without a cache: the quantile of the fresh sample set. -/
def fresh_cell {S V Q : Type} (lib : ecl_sum_lib S V)
    (statistics_empirical_quantile : List V → Q → Except failure (V × List V))
    (data : List (sum_case_type S)) (interp_time : Int) (column : cstring × Q) :
    Except failure V :=
  match statistics_empirical_quantile (fresh_sample_set lib data interp_time column.1)
      column.2 with
  | .error f => .error f
  | .ok (value, _) => .ok value

/-- The matrix without a cache: rows in time order, cells in column order, every
    cell from its own fresh sample set. -/
def fresh_matrix {S V Q : Type} (lib : ecl_sum_lib S V)
    (statistics_empirical_quantile : List V → Q → Except failure (V × List V))
    (ensemble : ensemble_type S) (sum_keys : List cstring) (quantiles : List Q) :
    Except failure (List (List V)) :=
  ensemble.interp_time.mapM fun interp_time =>
    (sum_keys.zip quantiles).mapM
      (fresh_cell lib statistics_empirical_quantile ensemble.data interp_time)

/-! ## Concrete instances for worked examples -/

deriving instance DecidableEq for Except

/-- The value of a string of decimal digits. -/
def digits_value (digits : cstring) : Nat :=
  digits.foldl (fun n c => 10 * n + (c.toNat - '0'.toNat)) 0

/-- An unsigned decimal numeral: digits, optionally with one point among them. -/
def sscanf_unsigned (s : cstring) : Option ℚ :=
  match s.splitOn '.' with
  | [whole] =>
    if whole ≠ [] ∧ whole.all Char.isDigit then some (digits_value whole : ℚ) else none
  | [whole, frac] =>
    if (whole ≠ [] ∨ frac ≠ []) ∧ whole.all Char.isDigit ∧ frac.all Char.isDigit then
      some (mkRat (digits_value (whole ++ frac)) (10 ^ frac.length))
    else none
  | _ => none

/-- A reader of plain decimal numerals with an optional sign, with exact
    rational values.  It stands for `util_sscanf_double` in the worked examples,
    on the numerals that occur in configuration files. -/
def sscanf_decimal (s : cstring) : Option ℚ :=
  match s with
  | '-' :: rest => (sscanf_unsigned rest).map fun q => -q
  | '+' :: rest => sscanf_unsigned rest
  | _ => sscanf_unsigned s

/-- The summary cases of the worked examples, by the name of the data file:
    start time, end time and a rate.  EARLY starts one day before the epoch, OLD
    lies wholly before it. -/
def demo_case (data_file : cstring) : Int × Int × Int :=
  if data_file = "EARLY".toList then (-86400, 50, 1)
  else if data_file = "OLD".toList then (-200000, -100000, 3)
  else if data_file = "LATE".toList then (3600, 7200, 2)
  else if data_file = "SHORT".toList then (10, 40, 7)
  else (10, 100, data_file.length)

/-- The `ecl_sum` library of the worked examples; the value of a key at a time
    is `rate * time + length of the key`. -/
def demo_lib : ecl_sum_lib (Int × Int × Int) Int :=
  { ecl_sum_fread_alloc_case := demo_case
    ecl_sum_get_start_time := fun s => s.1
    ecl_sum_get_end_time := fun s => s.2.1
    ecl_sum_get_general_var_from_sim_time := fun s t key => s.2.2 * t + key.length }

/-- The file system of the worked examples: `RUN*` matches ten files, `NONE*`
    matches nothing, any other pattern matches the file of that name. -/
def demo_glob (pattern : cstring) : List cstring :=
  if pattern = "RUN*".toList then
    ["RUN0", "RUN1", "RUN2", "RUN3", "RUN4", "RUN5", "RUN6", "RUN7", "RUN8", "RUN9"].map
      String.toList
  else if pattern = "NONE*".toList then []
  else [pattern]

/-- An order statistic over integer samples, for the worked examples: the vector
    is sorted in place and the entry at index `quantile` is returned; the run
    stops when there is no such entry. -/
def demo_quantile (data : List Int) (quantile : Nat) : Except failure (Int × List Int) :=
  let sorted := data.insertionSort (· ≤ ·)
  match sorted.get? quantile with
  | some value => .ok (value, sorted)
  | none => .error .invalid_index

/-! ## Notions used in the statements -/

/-- The ensemble after `ensemble_add_case` was called for every file of a
    sequence, in order, on a freshly allocated ensemble. -/
def ensemble_add_cases {S V : Type} (lib : ecl_sum_lib S V) (files : List cstring) :
    ensemble_type S :=
  files.foldl (ensemble_add_case lib) ensemble_alloc

/-- The entry that line 105 computes for index `i`, in `time_t` arithmetic. -/
def time_axis_entry {S : Type} (ensemble : ensemble_type S) (i : Nat) : Int :=
  time_t_wrap (ensemble.start_time +
    Int.tdiv (time_t_wrap ((i : Int) * time_t_wrap (ensemble.end_time - ensemble.start_time)))
      (ensemble.num_interp - 1))

/-- The data files that `ensemble_init` loads, in loading order: every pattern
    of every CASE_LIST occurrence, expanded. -/
def config_case_files (glob : cstring → List cstring) (config : config_type) : List cstring :=
  config.CASE_LIST.flatMap fun case_list => case_list.flatMap glob

/-- The ensemble of the worked examples on the cache: four runs, of which SHORT
    ends at 40 and LATE starts at 3600, and a time axis of four points. -/
def demo_ensemble : ensemble_type (Int × Int × Int) :=
  { ensemble_add_cases demo_lib
      (["RUN1", "RUN22", "SHORT", "LATE"].map String.toList) with
    num_interp := 4
    interp_time := [10, 40, 70, 100] }

/-- What the loop over the columns keeps true of the cache while it works on the
    row of `interp_time`: a cached vector is empty, or the quantile function
    computes from it, at every level, what it computes from the fresh sample set
    of its key. -/
def cache_agrees {S V Q : Type} (lib : ecl_sum_lib S V)
    (statistics_empirical_quantile : List V → Q → Except failure (V × List V))
    (data : List (sum_case_type S)) (interp_time : Int) (cache : hash_type V) : Prop :=
  ∀ key v, cache key = some v →
    v = [] ∨ ∀ q, (statistics_empirical_quantile v q).map Prod.fst =
      (statistics_empirical_quantile (fresh_sample_set lib data interp_time key) q).map Prod.fst

/-- Every cached vector is empty: the state of the cache between two rows. -/
def cache_is_reset {V : Type} (cache : hash_type V) : Prop :=
  ∀ key v, cache key = some v → v = []

/-! ## The table of outputs and the program as a whole -/

/-- Lines 175-195; the keys are added afterwards. -/
def output_alloc (file format_string : cstring) : Except failure output_type :=
  if format_string = "S3GRAPH".toList then
    .ok { keys := [], file := file, format := .S3GRAPH }
  else if format_string = "HEADER".toList then
    .ok { keys := [], file := file, format := .HEADER }
  else if format_string = "PLAIN".toList then
    .ok { keys := [], file := file, format := .PLAIN }
  else .error (.unrecognized_format format_string)

/-- Lines 209-211. -/
def output_add_key (output : output_type) (key : cstring) : output_type :=
  { output with keys := output.keys ++ [key] }

/-- Modelled from the spec: the `hash_type` of libutil as it is used for the
    declared outputs ("each declared output names a destination"): the entries,
    file name and output, one per file name. -/
abbrev output_table_type := List (cstring × output_type)

/-- Modelled from the spec: `hash_insert_hash_owned_ref` of libutil on the table
    of outputs; an entry with the same file name is replaced. -/
def output_table_insert (output_table : output_table_type) (file : cstring)
    (output : output_type) : output_table_type :=
  if output_table.any (fun entry => decide (entry.1 = file)) then
    output_table.map fun entry => if entry.1 = file then (file, output) else entry
  else output_table ++ [(file, output)]

/-- Lines 224-235, one OUTPUT occurrence: file, format, then the keys, which
    "are just added - without any check".  An occurrence has two tokens at
    least; with fewer, `stringlist_iget` reaches outside the list. -/
def output_table_init_step (output_table : output_table_type) (tokens : List cstring) :
    Except failure output_table_type :=
  match tokens with
  | file :: format_string :: keys =>
    match output_alloc file format_string with
    | .error f => .error f
    | .ok output => .ok (output_table_insert output_table file (keys.foldl output_add_key output))
  | _ => .error .invalid_index

/-- Lines 222-236. -/
def output_table_init (output_table : output_table_type) (config : config_type) :
    Except failure output_table_type :=
  config.OUTPUT.foldlM output_table_init_step output_table

/-- What one call of `output_save` (line 557) is given to write: the file, its
    format, the keys, the levels and the matrix.  The text that is written is
    left to the formatter. -/
structure saved_output (V Q : Type) where
  file : cstring
  format : format_type
  ecl_keys : List cstring
  quantiles : List Q
  data : List (List V)
  deriving DecidableEq, Repr

/-- Lines 570-574 over the entries of the table in the order of the iteration:
    every output is run and saved in turn; the run ends at the first output
    that fails.  The result is the list of the outputs written and the failure
    that ended the run, if any. -/
def output_table_run_entries {S V Q : Type} (lib : ecl_sum_lib S V)
    (util_sscanf_double : cstring → Option Q)
    (statistics_empirical_quantile : List V → Q → Except failure (V × List V))
    (ensemble : ensemble_type S) :
    List (cstring × output_type) → List (saved_output V Q) × Option failure
  | [] => ([], none)
  | entry :: rest =>
    match output_run_line lib util_sscanf_double statistics_empirical_quantile entry.2
        ensemble with
    | .error f => ([], some f)
    | .ok (sum_keys, quantiles, data) =>
      let later := output_table_run_entries lib util_sscanf_double
        statistics_empirical_quantile ensemble rest
      ({ file := entry.2.file, format := entry.2.format, ecl_keys := sum_keys,
         quantiles := quantiles, data := data } :: later.1, later.2)

/-- Lines 567-575; `hash_iter` is the parameter that lists the entries of the
    table in the order in which the iterator of libutil visits them. -/
def output_table_run {S V Q : Type} (lib : ecl_sum_lib S V)
    (util_sscanf_double : cstring → Option Q)
    (statistics_empirical_quantile : List V → Q → Except failure (V × List V))
    (hash_iter : output_table_type → List (cstring × output_type))
    (output_table : output_table_type) (ensemble : ensemble_type S) :
    List (saved_output V Q) × Option failure :=
  output_table_run_entries lib util_sscanf_double statistics_empirical_quantile ensemble
    (hash_iter output_table)

/-- Lines 676-695 for a configuration that was read: the ensemble is
    initialised, the table of outputs is filled, the outputs are run. -/
def main {S V Q : Type} (lib : ecl_sum_lib S V) (glob : cstring → List cstring)
    (util_sscanf_double : cstring → Option Q)
    (statistics_empirical_quantile : List V → Q → Except failure (V × List V))
    (hash_iter : output_table_type → List (cstring × output_type))
    (config : config_type) : List (saved_output V Q) × Option failure :=
  match ensemble_init lib glob ensemble_alloc config with
  | .error f => ([], some f)
  | .ok ensemble =>
    match output_table_init [] config with
    | .error f => ([], some f)
    | .ok output_table =>
      output_table_run lib util_sscanf_double statistics_empirical_quantile hash_iter
        output_table ensemble

/-! ## The empirical quantile, following the specification -/

/-- The entry of a vector at an integer index, when there is one. -/
def double_vector_iget (vector : List ℚ) (index : Int) : Option ℚ :=
  if 0 ≤ index then vector.get? index.toNat else none

/-- Modelled from the spec: `statistics_empirical_quantile` of libutil, which is
    not part of the sources at hand, with the samples as exact rationals: "sort
    the sample set ascending, let n = sample count; rank = q*(n-1),
    lo = floor(rank), hi = ceil(rank), frac = rank - lo,
    result = sample[lo] + frac * (sample[hi]-sample[lo])"; "n = 0: signal an
    error".  The sorted samples are what is left in the vector.  An order
    statistic outside the vector ends the run. -/
def statistics_empirical_quantile (data : List ℚ) (quantile : ℚ) :
    Except failure (ℚ × List ℚ) :=
  let sample := data.insertionSort (· ≤ ·)
  let n := sample.length
  if n = 0 then .error .no_run_covers
  else
    let rank := quantile * ((n : ℚ) - 1)
    let lo := ⌊rank⌋
    let hi := ⌈rank⌉
    let frac := rank - (lo : ℚ)
    match double_vector_iget sample lo, double_vector_iget sample hi with
    | some low, some high => .ok (low + frac * (high - low), sample)
    | _, _ => .error .invalid_index

/-! ## The end-to-end scenario of the specification -/

/-- The twelve data files of the scenario. -/
def scenario_files : List cstring :=
  ["RUN0", "RUN1", "RUN2", "RUN3", "RUN4", "RUN5", "RUN6", "RUN7", "RUN8", "RUN9", "RUN10",
    "RUN11"].map String.toList

/-- The `ecl_sum` library of the scenario: a case is the index i of its file,
    its range is 0 to 100 and its variable X has the constant value 10 i. -/
def scenario_lib : ecl_sum_lib Nat ℚ :=
  { ecl_sum_fread_alloc_case := fun data_file => scenario_files.indexOf data_file
    ecl_sum_get_start_time := fun _ => 0
    ecl_sum_get_end_time := fun _ => 100
    ecl_sum_get_general_var_from_sim_time := fun i _ key =>
      if key = "X".toList then 10 * (i : ℚ) else 0 }

/-- The file system of the scenario: `RUN*` matches the twelve files. -/
def scenario_glob (pattern : cstring) : List cstring :=
  if pattern = "RUN*".toList then scenario_files else []

/-- The configuration of the scenario, with the OUTPUT occurrences left open:
    CASE_LIST RUN* and NUM_INTERP 2. -/
def scenario_config (outputs : List (List String)) : config_type :=
  { CASE_LIST := [["RUN*".toList]]
    NUM_INTERP := some 2
    OUTPUT := outputs.map fun tokens => tokens.map String.toList }

/-- A library with a gap for the worked examples: SHORT covers 10 to 20, every
    other file covers 80 to 100; the value of every key is the start time of
    the case. -/
def gap_lib : ecl_sum_lib (Int × Int) ℚ :=
  { ecl_sum_fread_alloc_case := fun data_file =>
      if data_file = "SHORT".toList then (10, 20) else (80, 100)
    ecl_sum_get_start_time := fun s => s.1
    ecl_sum_get_end_time := fun s => s.2
    ecl_sum_get_general_var_from_sim_time := fun s _ _ => (s.1 : ℚ) }

/-- The ensemble of SHORT and TAIL in `gap_lib` with its time axis of three
    points, 10, 55 and 100; no run covers 55. -/
def gap_ensemble : ensemble_type (Int × Int) :=
  { ensemble_add_cases gap_lib ["SHORT".toList, "TAIL".toList] with
    num_interp := 3
    interp_time := [10, 55, 100] }

/-- The ensemble after the files of a sequence were added to a fresh ensemble
    and the point count was set to N, as `ensemble_init` has it when it builds
    the time axis. -/
def ensemble_with_num_interp {S V : Type} (lib : ecl_sum_lib S V) (files : List cstring)
    (N : Int) : ensemble_type S :=
  { ensemble_add_cases lib files with num_interp := N }

/-- The ensemble of the scenario as `ensemble_init` leaves it: twelve cases with
    the range 0 to 100, the bounds 0 and 100, the time axis 0, 100. -/
def scenario_ensemble : ensemble_type Nat :=
  { data := (List.range 12).map fun i => { ecl_sum := i, start_time := 0, end_time := 100 }
    interp_time := [0, 100]
    num_interp := 2
    start_time := 0
    end_time := 100
    refcase := some 0 }

/-- The output GOOD of the worked examples: the median of X, in PLAIN format. -/
def scenario_good : output_type :=
  { keys := ["X:0.50".toList], file := "GOOD".toList, format := .PLAIN }

/-- The output BAD of the worked examples: its only token has no colon. -/
def scenario_bad : output_type :=
  { keys := ["FOPT".toList], file := "BAD".toList, format := .HEADER }

/-- A library with one very long run for the worked examples: every file covers
    0 to 3 * 2^61 seconds, and every key has the value 1. -/
def huge_lib : ecl_sum_lib Unit Int :=
  { ecl_sum_fread_alloc_case := fun _ => ()
    ecl_sum_get_start_time := fun _ => 0
    ecl_sum_get_end_time := fun _ => 6917529027641081856
    ecl_sum_get_general_var_from_sim_time := fun _ _ _ => 1 }

/-! ## Lemmas on the ensemble bounds -/


section bounds
variable {S V : Type} (lib : ecl_sum_lib S V)

/-- The start time after one more case: tightened when the running value is
    positive, overwritten otherwise. -/
theorem add_case_start_time (e : ensemble_type S) (f : cstring) :
    (ensemble_add_case lib e f).start_time =
      if e.start_time > 0 then min e.start_time (sum_case_fread_alloc lib f).start_time
      else (sum_case_fread_alloc lib f).start_time := by
  unfold ensemble_add_case
  by_cases h : e.start_time > 0 <;> simp [h, util_time_t_min, sum_case_fread_alloc]

/-- The end time after one more case is the larger of the two. -/
theorem add_case_end_time (e : ensemble_type S) (f : cstring) :
    (ensemble_add_case lib e f).end_time =
      max e.end_time (sum_case_fread_alloc lib f).end_time := by
  unfold ensemble_add_case
  by_cases h : e.start_time > 0 <;> simp [h, util_time_t_max]

/-- From a positive running start time and cases with positive start times, the
    start time stays positive, is below the running value and every added start, and
    is one of them. -/
theorem foldl_add_case_start (files : List cstring) :
    ∀ e : ensemble_type S, 0 < e.start_time →
      (∀ f ∈ files, 0 < (sum_case_fread_alloc lib f).start_time) →
      (let r := (files.foldl (ensemble_add_case lib) e).start_time
       0 < r ∧ r ≤ e.start_time ∧ (∀ f ∈ files, r ≤ (sum_case_fread_alloc lib f).start_time) ∧
        (r = e.start_time ∨ ∃ f ∈ files, r = (sum_case_fread_alloc lib f).start_time)) := by
  induction files with
  | nil => intro e he _; simp [he]
  | cons f fs ih =>
    intro e he hpos
    have hf := hpos f (List.mem_cons_self _ _)
    have hstart := add_case_start_time lib e f
    rw [if_pos he] at hstart
    have h0 : 0 < (ensemble_add_case lib e f).start_time := by
      rw [hstart]; exact lt_min he hf
    obtain ⟨h1, h2, h3, h4⟩ := ih (ensemble_add_case lib e f) h0
      (fun g hg => hpos g (List.mem_cons_of_mem _ hg))
    simp only [List.foldl_cons]
    rw [hstart] at h2 h4
    refine ⟨h1, le_trans h2 (min_le_left _ _), ?_, ?_⟩
    · intro g hg
      rcases List.mem_cons.1 hg with rfl | hg
      · exact le_trans h2 (min_le_right _ _)
      · exact h3 g hg
    · rcases h4 with h4 | ⟨g, hg, h4⟩
      · rcases min_choice e.start_time (sum_case_fread_alloc lib f).start_time with hm | hm
        · left; rw [h4, hm]
        · right; exact ⟨f, List.mem_cons_self _ _, by rw [h4, hm]⟩
      · right; exact ⟨g, List.mem_cons_of_mem _ hg, h4⟩

/-- The end time after a sequence of cases is above the running value and every
    added end, and is one of them. -/
theorem foldl_add_case_end (files : List cstring) :
    ∀ e : ensemble_type S,
      (let r := (files.foldl (ensemble_add_case lib) e).end_time
       e.end_time ≤ r ∧ (∀ f ∈ files, (sum_case_fread_alloc lib f).end_time ≤ r) ∧
        (r = e.end_time ∨ ∃ f ∈ files, r = (sum_case_fread_alloc lib f).end_time)) := by
  induction files with
  | nil => intro e; simp
  | cons f fs ih =>
    intro e
    have hend := add_case_end_time lib e f
    obtain ⟨h2, h3, h4⟩ := ih (ensemble_add_case lib e f)
    simp only [List.foldl_cons]
    rw [hend] at h2 h4
    refine ⟨le_trans (le_max_left _ _) h2, ?_, ?_⟩
    · intro g hg
      rcases List.mem_cons.1 hg with rfl | hg
      · exact le_trans (le_max_right _ _) h2
      · exact h3 g hg
    · rcases h4 with h4 | ⟨g, hg, h4⟩
      · rcases max_choice e.end_time (sum_case_fread_alloc lib f).end_time with hm | hm
        · left; rw [h4, hm]
        · right; exact ⟨f, List.mem_cons_self _ _, by rw [h4, hm]⟩
      · right; exact ⟨g, List.mem_cons_of_mem _ hg, h4⟩

/-- On a fresh ensemble the start time is the least start and the end time the
    greatest end, for positive starts and an end at -1 or later. -/
theorem add_cases_bounds (files : List cstring) (hne : files ≠ [])
    (hpos : ∀ f ∈ files, 0 < (sum_case_fread_alloc lib f).start_time)
    (hend : ∃ f ∈ files, -1 ≤ (sum_case_fread_alloc lib f).end_time) :
    ((∃ f ∈ files, (ensemble_add_cases lib files).start_time = (sum_case_fread_alloc lib f).start_time) ∧
      ∀ f ∈ files, (ensemble_add_cases lib files).start_time ≤ (sum_case_fread_alloc lib f).start_time) ∧
    ((∃ f ∈ files, (ensemble_add_cases lib files).end_time = (sum_case_fread_alloc lib f).end_time) ∧
      ∀ f ∈ files, (sum_case_fread_alloc lib f).end_time ≤ (ensemble_add_cases lib files).end_time) := by
  constructor
  · cases files with
    | nil => exact absurd rfl hne
    | cons f fs =>
      have hf := hpos f (List.mem_cons_self _ _)
      have hstart : (ensemble_add_case lib (ensemble_alloc : ensemble_type S) f).start_time =
          (sum_case_fread_alloc lib f).start_time := by
        rw [add_case_start_time]; simp [ensemble_alloc]
      obtain ⟨-, h2, h3, h4⟩ := foldl_add_case_start lib fs
        (ensemble_add_case lib ensemble_alloc f) (by rw [hstart]; exact hf)
        (fun g hg => hpos g (List.mem_cons_of_mem _ hg))
      rw [hstart] at h2 h4
      unfold ensemble_add_cases
      simp only [List.foldl_cons]
      constructor
      · rcases h4 with h4 | ⟨g, hg, h4⟩
        · exact ⟨f, List.mem_cons_self _ _, h4⟩
        · exact ⟨g, List.mem_cons_of_mem _ hg, h4⟩
      · intro g hg
        rcases List.mem_cons.1 hg with rfl | hg
        · exact h2
        · exact h3 g hg
  · obtain ⟨h2, h3, h4⟩ := foldl_add_case_end lib files (ensemble_alloc : ensemble_type S)
    unfold ensemble_add_cases
    refine ⟨?_, h3⟩
    rcases h4 with h4 | h4
    · obtain ⟨g, hg, hge⟩ := hend
      refine ⟨g, hg, le_antisymm ?_ (h3 g hg)⟩
      rw [h4]; simpa [ensemble_alloc] using hge
    · exact h4

end bounds

/-! ## Lemmas on the time axis -/


section axis
variable {S : Type}

/-- One turn of the loop of line 105 appends the entry for `i` when `num_interp` is
    not 1. -/
theorem init_time_interp_step_ok (e : ensemble_type S) (i : Nat) (h : e.num_interp ≠ 1) :
    ensemble_init_time_interp_step e i =
      .ok { e with interp_time := e.interp_time ++ [time_axis_entry e i] } := by
  have h0 : e.num_interp - 1 ≠ 0 := fun h0 => h (by omega)
  simp [ensemble_init_time_interp_step, time_t_div, h0, time_axis_entry]

/-- The loop of line 105 over a list of indices appends their entries. -/
theorem foldlM_time_interp_step (l : List Nat) :
    ∀ e : ensemble_type S, e.num_interp ≠ 1 →
      l.foldlM ensemble_init_time_interp_step e =
        .ok { e with interp_time := e.interp_time ++ l.map (time_axis_entry e) } := by
  induction l with
  | nil => intro e _; simp [pure, Except.pure]
  | cons i l ih =>
    intro e h
    rw [List.foldlM_cons, init_time_interp_step_ok e i h]
    show List.foldlM ensemble_init_time_interp_step _ l = _
    rw [ih { e with interp_time := e.interp_time ++ [time_axis_entry e i] } h]
    simp [time_axis_entry]

/-- When `num_interp` is not 1 the time axis receives the entries for `0 ..
    num_interp - 1`. -/
theorem init_time_interp_ok (e : ensemble_type S) (h : e.num_interp ≠ 1) :
    ensemble_init_time_interp e =
      .ok { e with interp_time :=
        e.interp_time ++ (List.range e.num_interp.toNat).map (time_axis_entry e) } :=
  foldlM_time_interp_step _ e h

/-- When `num_interp` is 1 the first turn of the loop divides by zero. -/
theorem init_time_interp_one (e : ensemble_type S) (h : e.num_interp = 1) :
    ensemble_init_time_interp e = .error .division_by_zero := by
  simp [ensemble_init_time_interp, h, List.range_succ, ensemble_init_time_interp_step, time_t_div,
    bind, Except.bind]

/-- A value in the range of `time_t` is held unchanged. -/
theorem time_t_wrap_of_is_time_t (x : Int) (h : is_time_t x) : time_t_wrap x = x := by
  unfold is_time_t at h
  unfold time_t_wrap
  omega

/-- The entry for index 0 is the start time. -/
theorem time_axis_entry_zero (e : ensemble_type S) (hs : is_time_t e.start_time) :
    time_axis_entry e 0 = e.start_time := by
  have h0 : time_t_wrap 0 = 0 := by unfold time_t_wrap; omega
  simp [time_axis_entry, h0, time_t_wrap_of_is_time_t _ hs]

/-- When no product of line 105 leaves the range of `time_t`, the entry for an
    index up to `num_interp - 1` is the exact one, with the flooring division. -/
theorem time_axis_entry_exact (e : ensemble_type S) (i : Nat) (h : 2 ≤ e.num_interp)
    (hs : is_time_t e.start_time) (he : is_time_t e.end_time)
    (hse : e.start_time ≤ e.end_time)
    (hfit : (e.num_interp - 1) * (e.end_time - e.start_time) < 2 ^ 63)
    (hi : (i : Int) ≤ e.num_interp - 1) :
    time_axis_entry e i =
      e.start_time + ((i : Int) * (e.end_time - e.start_time)) / (e.num_interp - 1) := by
  have hfit' : (e.num_interp - 1) * (e.end_time - e.start_time) < 9223372036854775808 := by
    norm_num at hfit; exact hfit
  have hd0 : 0 ≤ e.end_time - e.start_time := by omega
  have hn0 : 0 < e.num_interp - 1 := by omega
  have hi0 : (0 : Int) ≤ (i : Int) := Int.ofNat_nonneg i
  have hprod0 : 0 ≤ (i : Int) * (e.end_time - e.start_time) := mul_nonneg hi0 hd0
  have hprod1 : (i : Int) * (e.end_time - e.start_time) ≤
      (e.num_interp - 1) * (e.end_time - e.start_time) :=
    mul_le_mul_of_nonneg_right hi hd0
  have hd1 : e.end_time - e.start_time ≤ (e.num_interp - 1) * (e.end_time - e.start_time) := by
    nlinarith
  have hwd : time_t_wrap (e.end_time - e.start_time) = e.end_time - e.start_time :=
    time_t_wrap_of_is_time_t _ ⟨by omega, by omega⟩
  have hwp : time_t_wrap ((i : Int) * (e.end_time - e.start_time)) =
      (i : Int) * (e.end_time - e.start_time) :=
    time_t_wrap_of_is_time_t _ ⟨by omega, by omega⟩
  have hq0 : 0 ≤ ((i : Int) * (e.end_time - e.start_time)) / (e.num_interp - 1) :=
    Int.ediv_nonneg hprod0 (le_of_lt hn0)
  have hq1 : ((i : Int) * (e.end_time - e.start_time)) / (e.num_interp - 1) ≤
      e.end_time - e.start_time := by
    have := Int.ediv_le_ediv hn0 hprod1
    rwa [Int.mul_ediv_cancel_left _ (ne_of_gt hn0)] at this
  unfold is_time_t at hs he
  unfold time_axis_entry
  rw [hwd, hwp, Int.tdiv_eq_ediv hprod0 (le_of_lt hn0)]
  exact time_t_wrap_of_is_time_t _ ⟨by omega, by omega⟩

/-- The entry for index `num_interp - 1` is the end time, when the product of
    line 105 stays within `time_t`. -/
theorem time_axis_entry_last (e : ensemble_type S) (h : 2 ≤ e.num_interp)
    (hs : is_time_t e.start_time) (he : is_time_t e.end_time)
    (hse : e.start_time ≤ e.end_time)
    (hfit : (e.num_interp - 1) * (e.end_time - e.start_time) < 2 ^ 63) :
    time_axis_entry e (e.num_interp.toNat - 1) = e.end_time := by
  have h1 : ((e.num_interp.toNat - 1 : Nat) : Int) = e.num_interp - 1 := by omega
  have h0 : e.num_interp - 1 ≠ 0 := by omega
  rw [time_axis_entry_exact e _ h hs he hse hfit (le_of_eq h1), h1,
    Int.mul_ediv_cancel_left _ h0]
  omega

/-- Consecutive entries never decrease, when the products of line 105 stay
    within `time_t`. -/
theorem time_axis_entry_mono (e : ensemble_type S) (i : Nat) (h : 2 ≤ e.num_interp)
    (hs : is_time_t e.start_time) (he : is_time_t e.end_time)
    (hse : e.start_time ≤ e.end_time)
    (hfit : (e.num_interp - 1) * (e.end_time - e.start_time) < 2 ^ 63)
    (hi : ((i + 1 : Nat) : Int) ≤ e.num_interp - 1) :
    time_axis_entry e i ≤ time_axis_entry e (i + 1) := by
  rw [time_axis_entry_exact e i h hs he hse hfit (by omega),
    time_axis_entry_exact e (i + 1) h hs he hse hfit hi]
  have hd : 0 ≤ e.end_time - e.start_time := by omega
  have : (i : Int) * (e.end_time - e.start_time) ≤
      ((i + 1 : Nat) : Int) * (e.end_time - e.start_time) := by
    push_cast; nlinarith
  have := Int.ediv_le_ediv (show 0 < e.num_interp - 1 by omega) this
  omega

/-- Consecutive entries increase when the span is at least `num_interp - 1` and
    the products of line 105 stay within `time_t`. -/
theorem time_axis_entry_strict (e : ensemble_type S) (i : Nat) (h : 2 ≤ e.num_interp)
    (hs : is_time_t e.start_time) (he : is_time_t e.end_time)
    (hfit : (e.num_interp - 1) * (e.end_time - e.start_time) < 2 ^ 63)
    (hi : ((i + 1 : Nat) : Int) ≤ e.num_interp - 1)
    (hspan : e.num_interp - 1 ≤ e.end_time - e.start_time) :
    time_axis_entry e i < time_axis_entry e (i + 1) := by
  have hse : e.start_time ≤ e.end_time := by omega
  rw [time_axis_entry_exact e i h hs he hse hfit (by omega),
    time_axis_entry_exact e (i + 1) h hs he hse hfit hi]
  have hpos : 0 < e.num_interp - 1 := by omega
  have hle : (i : Int) * (e.end_time - e.start_time) + (e.num_interp - 1) * 1 ≤
      ((i + 1 : Nat) : Int) * (e.end_time - e.start_time) := by
    push_cast; nlinarith
  have h1 := Int.ediv_le_ediv hpos hle
  rw [Int.add_mul_ediv_left _ _ (ne_of_gt hpos)] at h1
  omega

/-- The entry for index `i` as the floor of a real quotient, when the products of
    line 105 stay within `time_t`. -/
theorem time_axis_entry_floor (e : ensemble_type S) (i : Nat) (h : 2 ≤ e.num_interp)
    (hs : is_time_t e.start_time) (he : is_time_t e.end_time)
    (hse : e.start_time ≤ e.end_time)
    (hfit : (e.num_interp - 1) * (e.end_time - e.start_time) < 2 ^ 63)
    (hi : (i : Int) ≤ e.num_interp - 1) :
    time_axis_entry e i =
      e.start_time +
        ⌊((i : ℝ) * ((e.end_time : ℝ) - (e.start_time : ℝ))) / ((e.num_interp : ℝ) - 1)⌋ := by
  rw [time_axis_entry_exact e i h hs he hse hfit hi]
  congr 1
  have hn : ((e.num_interp - 1).toNat : Int) = e.num_interp - 1 := by omega
  have hq := Rat.floor_intCast_div_natCast ((i : Int) * (e.end_time - e.start_time))
    (e.num_interp - 1).toNat
  rw [hn] at hq
  rw [← hq, ← @Rat.floor_cast ℝ _ _]
  congr 1
  have hn' : (((e.num_interp - 1).toNat : ℕ) : ℝ) = (e.num_interp : ℝ) - 1 := by
    have := congrArg (fun z : Int => (z : ℝ)) hn
    simpa using this
  push_cast
  rw [hn']

end axis

/-! ## Lemmas on the initialisation -/


section init
variable {S V : Type} (lib : ecl_sum_lib S V)

/-- Adding cases appends them to `data` and leaves `interp_time` and `num_interp`
    alone. -/
theorem foldl_add_case_fields (files : List cstring) :
    ∀ e : ensemble_type S,
      (files.foldl (ensemble_add_case lib) e).data =
          e.data ++ files.map (sum_case_fread_alloc lib) ∧
        (files.foldl (ensemble_add_case lib) e).interp_time = e.interp_time ∧
        (files.foldl (ensemble_add_case lib) e).num_interp = e.num_interp := by
  induction files with
  | nil => intro e; simp
  | cons f fs ih =>
    intro e
    obtain ⟨h1, h2, h3⟩ := ih (ensemble_add_case lib e f)
    simp only [List.foldl_cons, List.map_cons]
    rw [h1, h2, h3]
    unfold ensemble_add_case
    by_cases h : e.start_time > 0 <;> simp [h]

/-- The nested loops of lines 140-147 add the files of `config_case_files` in order. -/
theorem init_load_eq_foldl (glob : cstring → List cstring) (config : config_type)
    (e : ensemble_type S) :
    ensemble_init_load lib glob e config =
      (config_case_files glob config).foldl (ensemble_add_case lib) e := by
  unfold ensemble_init_load config_case_files
  generalize config.CASE_LIST = occ
  induction occ generalizing e with
  | nil => simp
  | cons cl occ ih =>
    simp only [List.foldl_cons, List.flatMap_cons, List.foldl_append]
    rw [ih]
    congr 1
    clear ih
    induction cl generalizing e with
    | nil => simp
    | cons p ps ihp =>
      simp only [List.foldl_cons, List.flatMap_cons, List.foldl_append]
      rw [ihp]
      rfl

/-- The state of a fresh ensemble after the loading of the cases. -/
theorem init_load_alloc (glob : cstring → List cstring) (config : config_type) :
    (ensemble_init_load lib glob ensemble_alloc config).data =
        (config_case_files glob config).map (sum_case_fread_alloc lib) ∧
      (ensemble_init_load lib glob ensemble_alloc config).interp_time = [] ∧
      (ensemble_init_load lib glob ensemble_alloc config).num_interp = DEFAULT_NUM_INTERP := by
  rw [init_load_eq_foldl]
  obtain ⟨h1, h2, h3⟩ := foldl_add_case_fields lib (config_case_files glob config)
    (ensemble_alloc : ensemble_type S)
  exact ⟨by rw [h1]; simp [ensemble_alloc], by rw [h2]; rfl, by rw [h3]; rfl⟩

/-- Lines 159-161 on an ensemble with an empty time axis and `num_interp` other than
    1. -/
theorem init_tail_of_ne_one (E : ensemble_type S) (hne : E.num_interp ≠ 1)
    (hit : E.interp_time = []) :
    (match ensemble_init_time_interp E with
      | .error f => (.error f : Except failure (ensemble_type S))
      | .ok ensemble =>
        if ensemble.data.length < 10 then .error .too_few_realizations else .ok ensemble) =
      if E.data.length < 10 then .error .too_few_realizations
      else .ok { E with interp_time :=
        (List.range E.num_interp.toNat).map (time_axis_entry E) } := by
  rw [init_time_interp_ok E hne, hit]
  simp

/-- The result of `ensemble_init` when some file is loaded and the point count is
    not 1: the test on the number of realizations decides. -/
theorem ensemble_init_of_ne_one (glob : cstring → List cstring) (config : config_type)
    (hfiles : config_case_files glob config ≠ [])
    (hN : config.NUM_INTERP ≠ some 1) :
    ∃ e : ensemble_type S,
      e.interp_time = (List.range (config.NUM_INTERP.getD DEFAULT_NUM_INTERP).toNat).map
          (time_axis_entry e) ∧
      e.num_interp = config.NUM_INTERP.getD DEFAULT_NUM_INTERP ∧
      e.data = (config_case_files glob config).map (sum_case_fread_alloc lib) ∧
      ensemble_init lib glob ensemble_alloc config =
        if (config_case_files glob config).length < 10 then .error .too_few_realizations
        else .ok e := by
  obtain ⟨hd, hit, hni⟩ := init_load_alloc lib glob config
  unfold ensemble_init
  generalize ensemble_init_load lib glob ensemble_alloc config = L at hd hit hni
  obtain ⟨f, fs, hfs⟩ := List.exists_cons_of_ne_nil hfiles
  have hget : vector_iget_const L.data 0 = .ok (sum_case_fread_alloc lib f) := by
    rw [hd, hfs]; simp [vector_iget_const]
  simp only [hget]
  cases hcfg : config.NUM_INTERP with
  | none =>
    have hne : L.num_interp ≠ 1 := by rw [hni]; decide
    refine ⟨{ L with refcase := some (sum_case_fread_alloc lib f).ecl_sum, interp_time :=
      (List.range L.num_interp.toNat).map (time_axis_entry L) }, ?_, ?_, ?_, ?_⟩
    · simp [hni, time_axis_entry]
    · simp [hni]
    · simp [hd]
    · have := init_tail_of_ne_one
        { L with refcase := some (sum_case_fread_alloc lib f).ecl_sum } hne hit
      rw [this]
      simp only [hd, List.length_map]
      rfl
  | some n =>
    have hne : n ≠ 1 := fun h => hN (by rw [hcfg, h])
    refine ⟨{ L with
      refcase := some (sum_case_fread_alloc lib f).ecl_sum
      num_interp := n
      interp_time := (List.range n.toNat).map (time_axis_entry { L with num_interp := n }) },
      ?_, ?_, ?_, ?_⟩
    · simp [time_axis_entry]
    · simp
    · simp [hd]
    · have := init_tail_of_ne_one
        { L with refcase := some (sum_case_fread_alloc lib f).ecl_sum, num_interp := n } hne hit
      rw [this]
      simp only [hd, List.length_map]
      rfl

/-- With a point count of 1 and some file loaded, `ensemble_init` ends at the
    division by zero. -/
theorem ensemble_init_of_one (glob : cstring → List cstring) (config : config_type)
    (hfiles : config_case_files glob config ≠ [])
    (hN : config.NUM_INTERP = some 1) :
    ensemble_init lib glob (ensemble_alloc : ensemble_type S) config =
      .error .division_by_zero := by
  obtain ⟨hd, -, -⟩ := init_load_alloc lib glob config
  unfold ensemble_init
  generalize ensemble_init_load lib glob ensemble_alloc config = L at hd
  obtain ⟨f, fs, hfs⟩ := List.exists_cons_of_ne_nil hfiles
  have hget : vector_iget_const L.data 0 = .ok (sum_case_fread_alloc lib f) := by
    rw [hd, hfs]; simp [vector_iget_const]
  simp only [hget, hN]
  rw [init_time_interp_one _ rfl]

/-- With no file loaded, `ensemble_init` ends at the access to element 0 of the
    empty vector. -/
theorem ensemble_init_of_no_files (glob : cstring → List cstring) (config : config_type)
    (hfiles : config_case_files glob config = []) :
    ensemble_init lib glob (ensemble_alloc : ensemble_type S) config =
      .error .invalid_index := by
  obtain ⟨hd, -, -⟩ := init_load_alloc lib glob config
  unfold ensemble_init
  generalize ensemble_init_load lib glob ensemble_alloc config = L at hd
  have hget : vector_iget_const L.data 0 = .error .invalid_index := by
    rw [hd, hfiles]; simp [vector_iget_const]
  simp only [hget]

end init

/-! ## Ensemble bounds (C3) -/

/-- C3, refuted as stated: the run EARLY starts before the epoch (start time
    -86400) and LATE starts at 3600.  Added in the order EARLY, LATE the ensemble
    start time is 3600, which is not the minimum; added in the order LATE, EARLY
    it is -86400, so the result depends on the order.  And for the single run
    OLD, which ends at -100000, the ensemble end time is -1, not the maximum of
    the end times. -/
theorem ensemble_bounds_counterexample :
    (ensemble_add_cases demo_lib ["EARLY".toList, "LATE".toList]).start_time = 3600 ∧
      (sum_case_fread_alloc demo_lib "EARLY".toList).start_time = -86400 ∧
      (ensemble_add_cases demo_lib ["LATE".toList, "EARLY".toList]).start_time = -86400 ∧
      (ensemble_add_cases demo_lib ["OLD".toList]).end_time = -1 ∧
      (sum_case_fread_alloc demo_lib "OLD".toList).end_time = -100000 := by
  decide

/-- C3, as amended: for a non-empty sequence of runs whose start times are all
    positive and of which at least one ends at -1 or later, the ensemble start
    time is the minimum of the start times (it is one of them and below all of
    them), the end time is the maximum of the end times, and both are the same
    for every permutation of the sequence. -/
theorem ensemble_bounds_of_positive_starts {S V : Type} (lib : ecl_sum_lib S V)
    (files : List cstring) (hne : files ≠ [])
    (hpos : ∀ f ∈ files, 0 < (sum_case_fread_alloc lib f).start_time)
    (hend : ∃ f ∈ files, -1 ≤ (sum_case_fread_alloc lib f).end_time) :
    ((∃ f ∈ files,
          (ensemble_add_cases lib files).start_time = (sum_case_fread_alloc lib f).start_time) ∧
        ∀ f ∈ files,
          (ensemble_add_cases lib files).start_time ≤ (sum_case_fread_alloc lib f).start_time) ∧
      ((∃ f ∈ files,
          (ensemble_add_cases lib files).end_time = (sum_case_fread_alloc lib f).end_time) ∧
        ∀ f ∈ files,
          (sum_case_fread_alloc lib f).end_time ≤ (ensemble_add_cases lib files).end_time) ∧
      ∀ permuted : List cstring, permuted.Perm files →
        (ensemble_add_cases lib permuted).start_time = (ensemble_add_cases lib files).start_time ∧
          (ensemble_add_cases lib permuted).end_time = (ensemble_add_cases lib files).end_time := by
  obtain ⟨⟨⟨a, ha, hae⟩, hamin⟩, ⟨b, hb, hbe⟩, hbmax⟩ := add_cases_bounds lib files hne hpos hend
  refine ⟨⟨⟨a, ha, hae⟩, hamin⟩, ⟨⟨b, hb, hbe⟩, hbmax⟩, ?_⟩
  intro permuted hperm
  have hne' : permuted ≠ [] := fun h => hne (by simpa [h] using hperm.symm)
  have hpos' : ∀ f ∈ permuted, 0 < (sum_case_fread_alloc lib f).start_time :=
    fun f hf => hpos f (hperm.mem_iff.1 hf)
  have hend' : ∃ f ∈ permuted, -1 ≤ (sum_case_fread_alloc lib f).end_time := by
    obtain ⟨f, hf, h⟩ := hend
    exact ⟨f, hperm.mem_iff.2 hf, h⟩
  obtain ⟨⟨⟨a', ha', hae'⟩, hamin'⟩, ⟨b', hb', hbe'⟩, hbmax'⟩ :=
    add_cases_bounds lib permuted hne' hpos' hend'
  constructor
  · apply le_antisymm
    · rw [hae]; exact hamin' a (hperm.mem_iff.2 ha)
    · rw [hae']; exact hamin a' (hperm.mem_iff.1 ha')
  · apply le_antisymm
    · rw [hbe']; exact hbmax b' (hperm.mem_iff.1 hb')
    · rw [hbe]; exact hbmax' b (hperm.mem_iff.2 hb)

/-- The amended C3 on the runs LATE (3600 to 7200), SHORT (10 to 40) and RUN1
    (10 to 100): the bounds are below 3600 and above 7200, and adding SHORT
    first gives the same start time. -/
theorem ensemble_bounds_witness :
    (ensemble_add_cases demo_lib ["LATE".toList, "SHORT".toList, "RUN1".toList]).start_time ≤
        3600 ∧
      7200 ≤
        (ensemble_add_cases demo_lib ["LATE".toList, "SHORT".toList, "RUN1".toList]).end_time ∧
      (ensemble_add_cases demo_lib ["SHORT".toList, "LATE".toList, "RUN1".toList]).start_time =
        (ensemble_add_cases demo_lib ["LATE".toList, "SHORT".toList, "RUN1".toList]).start_time :=
  have h := ensemble_bounds_of_positive_starts demo_lib
    ["LATE".toList, "SHORT".toList, "RUN1".toList] (by decide) (by decide) (by decide)
  ⟨h.1.2 "LATE".toList (by decide), h.2.1.2 "LATE".toList (by decide),
    (h.2.2 ["SHORT".toList, "LATE".toList, "RUN1".toList]
      (List.Perm.swap "LATE".toList "SHORT".toList ["RUN1".toList])).1⟩

/-! ## The time axis (C4, C5, C6) -/

/-- C4, refuted as stated: with start 0, end 2^62 and N = 5 the products
    `i * (end_time - start_time)` of line 105 leave the 64-bit range for i = 2,
    3 and 4, and the time axis is 0, 2^60, -2^61, -2^60, 0: its last entry is 0,
    not the end time. -/
theorem time_axis_overflow_counterexample :
    (ensemble_init_time_interp
        { (ensemble_alloc : ensemble_type Unit) with
          start_time := 0, end_time := 4611686018427387904, num_interp := 5 }).map
        (fun e => e.interp_time) =
      .ok [0, 1152921504606846976, -2305843009213693952, -1152921504606846976, 0] := by
  decide

/-- C4, as amended: for N at least 2 and `time_t` values start at most end with
    `(N - 1) * (end - start) < 2^63`, so that no product of line 105 overflows,
    `ensemble_init_time_interp` on an empty `interp_time` vector returns, and
    the vector then has exactly N entries, the first equal to `start_time` and
    the one at index N-1 equal to `end_time`. -/
theorem time_axis_length_and_endpoints {S : Type} (ensemble : ensemble_type S)
    (hN : 2 ≤ ensemble.num_interp)
    (hstart : is_time_t ensemble.start_time) (hend : is_time_t ensemble.end_time)
    (hle : ensemble.start_time ≤ ensemble.end_time)
    (hfit : (ensemble.num_interp - 1) * (ensemble.end_time - ensemble.start_time) < 2 ^ 63)
    (hempty : ensemble.interp_time = []) :
    ∃ result : ensemble_type S,
      ensemble_init_time_interp ensemble = .ok result ∧
        (result.interp_time.length : Int) = ensemble.num_interp ∧
        result.interp_time[0]? = some ensemble.start_time ∧
        result.interp_time[ensemble.num_interp.toNat - 1]? = some ensemble.end_time := by
  refine ⟨_, init_time_interp_ok ensemble (by omega), ?_, ?_, ?_⟩
  · simp only [hempty, List.nil_append, List.length_map, List.length_range]
    omega
  · have h0 : 0 < ensemble.num_interp.toNat := by omega
    simp [hempty, List.getElem?_range, h0, time_axis_entry_zero ensemble hstart]
  · have h1 : ensemble.num_interp.toNat - 1 < ensemble.num_interp.toNat := by omega
    simp [hempty, List.getElem?_range, h1,
      time_axis_entry_last ensemble hN hstart hend hle hfit]

/-- The amended C4 on start 7, end 100 and N = 5: five entries, from 7 to 100. -/
theorem time_axis_length_and_endpoints_witness :
    ∃ result : ensemble_type Unit,
      ensemble_init_time_interp
          { (ensemble_alloc : ensemble_type Unit) with
            start_time := 7, end_time := 100, num_interp := 5 } = .ok result ∧
        (result.interp_time.length : Int) = 5 ∧
        result.interp_time[0]? = some 7 ∧ result.interp_time[4]? = some 100 :=
  time_axis_length_and_endpoints
    { (ensemble_alloc : ensemble_type Unit) with
      start_time := 7, end_time := 100, num_interp := 5 } (by decide) (by decide) (by decide)
    (by decide) (by decide) rfl

/-- C5, refuted as stated: with start 1000000000, end 1000000001 and N = 3 the
    time axis is 1000000000, 1000000000, 1000000001, whose first two entries are
    equal. -/
theorem time_axis_strict_counterexample :
    (ensemble_init_time_interp
        { (ensemble_alloc : ensemble_type Unit) with
          start_time := 1000000000, end_time := 1000000001, num_interp := 3 }).map
        (fun e => e.interp_time) =
      .ok [1000000000, 1000000000, 1000000001] := by
  decide

/-- C5, as amended: for N at least 2 and `time_t` values start below end with
    `(N - 1) * (end - start) < 2^63`, so that no product of line 105 overflows,
    the time axis never decreases from one entry to the next, and it increases
    strictly at every step when the span `end_time - start_time` is at least
    N-1 seconds. -/
theorem time_axis_increasing {S : Type} (ensemble : ensemble_type S)
    (hN : 2 ≤ ensemble.num_interp)
    (hstart : is_time_t ensemble.start_time) (hend : is_time_t ensemble.end_time)
    (hlt : ensemble.start_time < ensemble.end_time)
    (hfit : (ensemble.num_interp - 1) * (ensemble.end_time - ensemble.start_time) < 2 ^ 63)
    (hempty : ensemble.interp_time = []) :
    ∃ result : ensemble_type S,
      ensemble_init_time_interp ensemble = .ok result ∧
        ∀ i : Nat, i + 1 < ensemble.num_interp.toNat →
          ∃ a b : Int, result.interp_time[i]? = some a ∧ result.interp_time[i + 1]? = some b ∧
            a ≤ b ∧
            (ensemble.num_interp - 1 ≤ ensemble.end_time - ensemble.start_time → a < b) := by
  refine ⟨_, init_time_interp_ok ensemble (by omega), ?_⟩
  intro i hi
  have hi0 : i < ensemble.num_interp.toNat := by omega
  have hi1 : ((i + 1 : Nat) : Int) ≤ ensemble.num_interp - 1 := by omega
  refine ⟨time_axis_entry ensemble i, time_axis_entry ensemble (i + 1), ?_, ?_,
    time_axis_entry_mono ensemble i hN hstart hend (le_of_lt hlt) hfit hi1,
    fun hspan => time_axis_entry_strict ensemble i hN hstart hend hfit hi1 hspan⟩
  · simp [hempty, List.getElem?_range, hi0]
  · simp [hempty, List.getElem?_range, hi]

/-- The amended C5 on start 7, end 100 and N = 5, at the first step. -/
theorem time_axis_increasing_witness :
    ∃ result : ensemble_type Unit,
      ensemble_init_time_interp
          { (ensemble_alloc : ensemble_type Unit) with
            start_time := 7, end_time := 100, num_interp := 5 } = .ok result ∧
        ∃ a b : Int, result.interp_time[0]? = some a ∧ result.interp_time[1]? = some b ∧
          a ≤ b ∧ ((5 : Int) - 1 ≤ 100 - 7 → a < b) :=
  (time_axis_increasing
    { (ensemble_alloc : ensemble_type Unit) with
      start_time := 7, end_time := 100, num_interp := 5 } (by decide) (by decide) (by decide)
    (by decide) (by decide) rfl).imp
    fun _ h => ⟨h.1, h.2 0 (by decide)⟩

/-- C6, refuted as stated: with start 0, end 2^62 and N = 5 the product
    `2 * (end_time - start_time)` of line 105 is 2^63, which a 64-bit `time_t`
    holds as -2^63, so that the entry at index 2 is -2^61; the real-valued
    formula `start + floor (i * (end - start) / (N - 1))` is not negative. -/
theorem time_axis_floor_counterexample :
    (ensemble_init_time_interp
        { (ensemble_alloc : ensemble_type Unit) with
          start_time := 0, end_time := 4611686018427387904, num_interp := 5 }).map
        (fun e => e.interp_time[2]?) =
      .ok (some (-2305843009213693952)) ∧
    (-2305843009213693952 : Int) ≠
      0 + ⌊(((2 : Nat) : ℝ) * (((4611686018427387904 : Int) : ℝ) - ((0 : Int) : ℝ))) /
        (((5 : Int) : ℝ) - 1)⌋ := by
  refine ⟨by decide, ?_⟩
  have h : (0 : Int) ≤
      ⌊(((2 : Nat) : ℝ) * (((4611686018427387904 : Int) : ℝ) - ((0 : Int) : ℝ))) /
        (((5 : Int) : ℝ) - 1)⌋ :=
    Int.floor_nonneg.2 (by norm_num)
  omega

/-- C6, as amended: for N at least 2, `time_t` values start at most end with
    `(N - 1) * (end - start) < 2^63`, so that no product of line 105 overflows,
    and an index i below N, the entry of the time axis at i, computed with
    integer arithmetic, is `start + floor (i * (end - start) / (N - 1))` with
    the division taken in the real numbers. -/
theorem time_axis_entry_is_real_floor {S : Type} (ensemble : ensemble_type S)
    (hN : 2 ≤ ensemble.num_interp)
    (hstart : is_time_t ensemble.start_time) (hend : is_time_t ensemble.end_time)
    (hle : ensemble.start_time ≤ ensemble.end_time)
    (hfit : (ensemble.num_interp - 1) * (ensemble.end_time - ensemble.start_time) < 2 ^ 63)
    (hempty : ensemble.interp_time = []) (i : Nat) (hi : i < ensemble.num_interp.toNat) :
    ∃ result : ensemble_type S,
      ensemble_init_time_interp ensemble = .ok result ∧
        result.interp_time[i]? = some (ensemble.start_time +
          ⌊((i : ℝ) * ((ensemble.end_time : ℝ) - (ensemble.start_time : ℝ))) /
            ((ensemble.num_interp : ℝ) - 1)⌋) := by
  refine ⟨_, init_time_interp_ok ensemble (by omega), ?_⟩
  rw [← time_axis_entry_floor ensemble i hN hstart hend hle hfit (by omega)]
  simp [hempty, List.getElem?_range, hi]

/-- The amended C6 on start 7, end 100, N = 5 and i = 2. -/
theorem time_axis_entry_is_real_floor_witness :
    ∃ result : ensemble_type Unit,
      ensemble_init_time_interp
          { (ensemble_alloc : ensemble_type Unit) with
            start_time := 7, end_time := 100, num_interp := 5 } = .ok result ∧
        result.interp_time[2]? = some ((7 : Int) +
          ⌊(((2 : Nat) : ℝ) * ((((100 : Int)) : ℝ) - (((7 : Int)) : ℝ))) /
            ((((5 : Int)) : ℝ) - 1)⌋) :=
  time_axis_entry_is_real_floor
    { (ensemble_alloc : ensemble_type Unit) with
      start_time := 7, end_time := 100, num_interp := 5 } (by decide) (by decide) (by decide)
    (by decide) (by decide) rfl 2 (by decide)

/-! ## Initialisation of the ensemble (C7, C8) -/

/-- C7, refuted as stated: with ten runs loaded, NUM_INTERP 1 makes
    `ensemble_init` evaluate the division by `num_interp - 1 = 0`, and
    NUM_INTERP 0 is accepted without any error and leaves an empty time axis. -/
theorem num_interp_below_two_counterexample :
    ensemble_init demo_lib demo_glob ensemble_alloc
        { CASE_LIST := [["RUN*".toList]], NUM_INTERP := some 1, OUTPUT := [] } =
      .error .division_by_zero ∧
    (ensemble_init demo_lib demo_glob ensemble_alloc
        { CASE_LIST := [["RUN*".toList]], NUM_INTERP := some 0, OUTPUT := [] }).map
        (fun e => (e.num_interp, e.interp_time)) =
      .ok (0, []) := by
  decide

/-- C7, as amended: `ensemble_init` makes no check of the point count.  With
    at least ten runs loaded, a count N that is zero or negative is accepted:
    the initialisation succeeds with `num_interp = N`, the time axis stays empty
    and no division takes place. -/
theorem num_interp_nonpositive_accepted {S V : Type} (lib : ecl_sum_lib S V)
    (glob : cstring → List cstring) (config : config_type) (n : Int)
    (hn : config.NUM_INTERP = some n) (hle : n ≤ 0)
    (hruns : 10 ≤ (config_case_files glob config).length) :
    ∃ result : ensemble_type S,
      ensemble_init lib glob ensemble_alloc config = .ok result ∧
        result.num_interp = n ∧ result.interp_time = [] := by
  have hfiles : config_case_files glob config ≠ [] := by
    intro h; rw [h] at hruns; simp at hruns
  have hN : config.NUM_INTERP ≠ some 1 := by
    rw [hn]; intro h; injection h with h; omega
  obtain ⟨e, hit, hni, -, hinit⟩ := ensemble_init_of_ne_one lib glob config hfiles hN
  refine ⟨e, ?_, ?_, ?_⟩
  · rw [hinit, if_neg (by omega)]
  · rw [hni, hn]; rfl
  · rw [hit, hn]
    have : (Option.getD (some n) DEFAULT_NUM_INTERP).toNat = 0 := by
      show n.toNat = 0
      omega
    rw [this]; rfl

/-- The amended C7 on ten runs and NUM_INTERP -3. -/
theorem num_interp_nonpositive_accepted_witness :
    ∃ result : ensemble_type (Int × Int × Int),
      ensemble_init demo_lib demo_glob ensemble_alloc
          { CASE_LIST := [["RUN*".toList]], NUM_INTERP := some (-3), OUTPUT := [] } =
        .ok result ∧ result.num_interp = -3 ∧ result.interp_time = [] :=
  num_interp_nonpositive_accepted demo_lib demo_glob
    { CASE_LIST := [["RUN*".toList]], NUM_INTERP := some (-3), OUTPUT := [] } (-3) rfl
    (by decide) (by decide)

/-- C8, refuted as stated: with no run loaded `ensemble_init` stops at the
    access to element 0 of the empty vector of cases (line 149), before the test
    on the number of realizations; and with ten runs loaded and NUM_INTERP 1 it
    does not succeed, it stops at the division by zero of line 105. -/
theorem too_few_realizations_counterexample :
    ensemble_init demo_lib demo_glob ensemble_alloc
        { CASE_LIST := [["NONE*".toList]], NUM_INTERP := none, OUTPUT := [] } =
      .error .invalid_index ∧
    (config_case_files demo_glob
        { CASE_LIST := [["RUN*".toList]], NUM_INTERP := some 1, OUTPUT := [] }).length = 10 ∧
    ensemble_init demo_lib demo_glob ensemble_alloc
        { CASE_LIST := [["RUN*".toList]], NUM_INTERP := some 1, OUTPUT := [] } =
      .error .division_by_zero := by
  decide

/-- C8, as amended: when at least one run was loaded and the point count is
    not 1, `ensemble_init` fails with the "too few realizations" error whenever
    fewer than 10 runs were loaded, and succeeds, keeping every loaded run,
    whenever 10 or more were loaded. -/
theorem too_few_realizations_threshold {S V : Type} (lib : ecl_sum_lib S V)
    (glob : cstring → List cstring) (config : config_type)
    (hfiles : config_case_files glob config ≠ [])
    (hN : config.NUM_INTERP ≠ some 1) :
    ((config_case_files glob config).length < 10 →
        ensemble_init lib glob (ensemble_alloc : ensemble_type S) config =
          .error .too_few_realizations) ∧
      (10 ≤ (config_case_files glob config).length →
        ∃ result : ensemble_type S,
          ensemble_init lib glob ensemble_alloc config = .ok result ∧
            result.data = (config_case_files glob config).map (sum_case_fread_alloc lib)) := by
  obtain ⟨e, -, -, hdata, hinit⟩ := ensemble_init_of_ne_one lib glob config hfiles hN
  constructor
  · intro h
    rw [hinit, if_pos h]
  · intro h
    exact ⟨e, by rw [hinit, if_neg (by omega)], hdata⟩

/-- The amended C8 on eleven runs with the default point count (success) and on
    two runs (failure). -/
theorem too_few_realizations_threshold_witness :
    (∃ result : ensemble_type (Int × Int × Int),
        ensemble_init demo_lib demo_glob ensemble_alloc
            { CASE_LIST := [["RUN*".toList, "SHORT".toList]], NUM_INTERP := none, OUTPUT := [] } =
          .ok result ∧
        result.data =
          (config_case_files demo_glob
            { CASE_LIST := [["RUN*".toList, "SHORT".toList]], NUM_INTERP := none,
              OUTPUT := [] }).map (sum_case_fread_alloc demo_lib)) ∧
      ensemble_init demo_lib demo_glob ensemble_alloc
          { CASE_LIST := [["SHORT".toList], ["LATE".toList]], NUM_INTERP := some 4,
            OUTPUT := [] } =
        .error .too_few_realizations :=
  ⟨(too_few_realizations_threshold demo_lib demo_glob
      { CASE_LIST := [["RUN*".toList, "SHORT".toList]], NUM_INTERP := none, OUTPUT := [] }
      (by decide) (by decide)).2 (by decide),
    (too_few_realizations_threshold demo_lib demo_glob
      { CASE_LIST := [["SHORT".toList], ["LATE".toList]], NUM_INTERP := some 4, OUTPUT := [] }
      (by decide) (by decide)).1 (by decide)⟩

/-! ## Lemmas on the sample sets and the row cache -/

section cache
variable {S V Q : Type} (lib : ecl_sum_lib S V)
  (seq : List V → Q → Except failure (V × List V))
  (data : List (sum_case_type S))

/-- The loop of lines 544-548 appends the values of the runs in range to the vector
    it starts from. -/
theorem fill_eq_append (t : Int) (key : cstring) :
    ∀ v : List V, output_run_line_fill lib data t key v =
      v ++ (data.filter fun run => decide (run.start_time ≤ t ∧ t ≤ run.end_time)).map
        fun run => lib.ecl_sum_get_general_var_from_sim_time run.ecl_sum t key := by
  unfold output_run_line_fill
  induction data with
  | nil => intro v; simp
  | cons run runs ih =>
    intro v
    simp only [List.foldl_cons]
    rw [ih]
    by_cases h : run.start_time ≤ t ∧ t ≤ run.end_time
    · simp [List.filter_cons, h]
    · simp [List.filter_cons, h]

/-- Binding a key twice keeps the second binding. -/
theorem insert_insert (cache : hash_type V) (key : cstring) (v w : List V) :
    hash_insert_hash_owned_ref (hash_insert_hash_owned_ref cache key v) key w =
      hash_insert_hash_owned_ref cache key w := by
  funext k
  unfold hash_insert_hash_owned_ref
  by_cases h : k = key <;> simp [h]

/-- The vector that a cell hands to the quantile function. -/
theorem cell_eq (t : Int) (cache : hash_type V) (key : cstring) (q : Q) :
    output_run_line_cell lib seq data t cache key q =
      match seq (match cache key with
          | some v => if v.length = 0 then fresh_sample_set lib data t key else v
          | none => fresh_sample_set lib data t key) q with
      | .error f => .error f
      | .ok (value, w) => .ok (hash_insert_hash_owned_ref cache key w, value) := by
  unfold output_run_line_cell
  cases h : cache key with
  | none =>
    have hget : hash_get (hash_insert_hash_owned_ref cache key ([] : List V)) key = .ok [] := by
      simp [hash_get, hash_insert_hash_owned_ref]
    simp only [hash_has_key, h, Option.isSome_none, Bool.not_false, if_true, hget,
      List.length_nil, insert_insert]
    rfl
  | some v =>
    have hget : hash_get cache key = .ok v := by simp [hash_get, h]
    simp only [hash_has_key, h, Option.isSome_some, Bool.not_true, Bool.false_eq_true, if_false,
      hget]
    by_cases hv : v.length = 0
    · have : v = [] := List.length_eq_zero.1 hv
      subst this
      simp only [List.length_nil, if_true, fresh_sample_set]
    · simp only [hv, if_false]

/-- A cell computes what the quantile function computes from the fresh sample set,
    and keeps `cache_agrees`. -/
theorem cell_spec (hseq : ∀ v q x w, seq v q = .ok (x, w) →
      ∀ q', (seq w q').map Prod.fst = (seq v q').map Prod.fst)
    (t : Int) (cache : hash_type V) (hinv : cache_agrees lib seq data t cache)
    (key : cstring) (q : Q) :
    match output_run_line_cell lib seq data t cache key q with
    | .error f => fresh_cell lib seq data t (key, q) = .error f
    | .ok (cache', x) =>
      fresh_cell lib seq data t (key, q) = .ok x ∧ cache_agrees lib seq data t cache' := by
  rw [cell_eq]
  generalize hu : (match cache key with
          | some v => if v.length = 0 then fresh_sample_set lib data t key else v
          | none => fresh_sample_set lib data t key) = u
  have hagree : ∀ q', (seq u q').map Prod.fst =
      (seq (fresh_sample_set lib data t key) q').map Prod.fst := by
    intro q'
    cases h : cache key with
    | none => rw [h] at hu; rw [← hu]
    | some v =>
      rw [h] at hu
      by_cases hv : v.length = 0
      · simp only [hv, if_true] at hu; rw [← hu]
      · simp only [hv, if_false] at hu
        rcases hinv key v h with h0 | h1
        · exact absurd (by simp [h0]) hv
        · rw [← hu]; exact h1 q'
  have hq := hagree q
  unfold fresh_cell
  cases hs : seq u q with
  | error f =>
    rw [hs] at hq
    cases hf : seq (fresh_sample_set lib data t key) q with
    | error g => rw [hf] at hq; simp [Except.map] at hq; simp [hq]
    | ok r => rw [hf] at hq; simp [Except.map] at hq
  | ok r =>
    obtain ⟨x, w⟩ := r
    rw [hs] at hq
    cases hf : seq (fresh_sample_set lib data t key) q with
    | error g => rw [hf] at hq; simp [Except.map] at hq
    | ok r' =>
      obtain ⟨x', w'⟩ := r'
      rw [hf] at hq
      simp [Except.map] at hq
      refine ⟨by simp [hq], ?_⟩
      intro k v hk
      unfold hash_insert_hash_owned_ref at hk
      by_cases hkk : k = key
      · subst hkk
        simp at hk
        subst hk
        right
        intro q'
        rw [hseq u q x w hs q']
        exact hagree q'
      · simp [hkk] at hk
        exact hinv k v hk


/-- The loop over the columns of a row computes the cells of the uncached row. -/
theorem columns_spec (hseq : ∀ v q x w, seq v q = .ok (x, w) →
      ∀ q', (seq w q').map Prod.fst = (seq v q').map Prod.fst)
    (t : Int) (columns : List (cstring × Q)) :
    ∀ (cache : hash_type V) (acc : List V), cache_agrees lib seq data t cache →
      match columns.foldlM (output_run_line_column lib seq data t) (cache, acc) with
      | .error f => columns.mapM (fresh_cell lib seq data t) = .error f
      | .ok (_, row) =>
        ∃ values, columns.mapM (fresh_cell lib seq data t) = .ok values ∧
          row = acc ++ values := by
  induction columns with
  | nil => intro cache acc _; exact ⟨[], rfl, by simp⟩
  | cons column columns ih =>
    intro cache acc hinv
    have hcell := cell_spec lib seq data hseq t cache hinv column.1 column.2
    rw [List.foldlM_cons, List.mapM_cons]
    unfold output_run_line_column
    cases hc : output_run_line_cell lib seq data t cache column.1 column.2 with
    | error f =>
      rw [hc] at hcell
      simp only [hcell]
      rfl
    | ok r =>
      obtain ⟨cache', x⟩ := r
      rw [hc] at hcell
      obtain ⟨hfresh, hinv'⟩ := hcell
      have hrec := ih cache' (acc ++ [x]) hinv'
      simp only [hfresh]
      show (match List.foldlM (output_run_line_column lib seq data t) (cache', acc ++ [x])
        columns with
        | .error f => _
        | .ok (_, row) => _)
      cases hr : List.foldlM (output_run_line_column lib seq data t) (cache', acc ++ [x])
        columns with
      | error f =>
        rw [hr] at hrec
        simp only [hrec]
        rfl
      | ok r' =>
        obtain ⟨cache'', row⟩ := r'
        rw [hr] at hrec
        obtain ⟨values, hvalues, hrow⟩ := hrec
        refine ⟨x :: values, ?_, by simp [hrow]⟩
        simp only [hvalues]
        rfl

/-- A row started on a reset cache computes the uncached row and ends on a reset
    cache. -/
theorem row_spec (hseq : ∀ v q x w, seq v q = .ok (x, w) →
      ∀ q', (seq w q').map Prod.fst = (seq v q').map Prod.fst)
    (t : Int) (columns : List (cstring × Q)) (cache : hash_type V)
    (hreset : cache_is_reset cache) :
    match output_run_line_row lib seq data columns cache t with
    | .error f => columns.mapM (fresh_cell lib seq data t) = .error f
    | .ok (cache', row) =>
      columns.mapM (fresh_cell lib seq data t) = .ok row ∧ cache_is_reset cache' := by
  have hinv : cache_agrees lib seq data t cache := fun k v hk => Or.inl (hreset k v hk)
  have hcols := columns_spec lib seq data hseq t columns cache [] hinv
  unfold output_run_line_row
  cases hc : List.foldlM (output_run_line_column lib seq data t) (cache, []) columns with
  | error f => rw [hc] at hcols; exact hcols
  | ok r =>
    obtain ⟨cache', row⟩ := r
    rw [hc] at hcols
    obtain ⟨values, hvalues, hrow⟩ := hcols
    refine ⟨by rw [hvalues, hrow]; rfl, ?_⟩
    intro k v hk
    simp only [hash_apply, double_vector_reset__] at hk
    cases hck : cache' k with
    | none => rw [hck] at hk; simp at hk
    | some w => rw [hck] at hk; simp at hk; exact hk.symm

/-- The loop over the rows computes the uncached matrix. -/
theorem rows_spec (hseq : ∀ v q x w, seq v q = .ok (x, w) →
      ∀ q', (seq w q').map Prod.fst = (seq v q').map Prod.fst)
    (columns : List (cstring × Q)) (times : List Int) :
    ∀ (cache : hash_type V) (acc : List (List V)), cache_is_reset cache →
      match times.foldlM (output_run_line_rows_step lib seq data columns) (cache, acc) with
      | .error f =>
        times.mapM (fun t => columns.mapM (fresh_cell lib seq data t)) = .error f
      | .ok (_, rows) =>
        ∃ matrix, times.mapM (fun t => columns.mapM (fresh_cell lib seq data t)) = .ok matrix ∧
          rows = acc ++ matrix := by
  induction times with
  | nil => intro cache acc _; exact ⟨[], rfl, by simp⟩
  | cons t times ih =>
    intro cache acc hreset
    have hrow := row_spec lib seq data hseq t columns cache hreset
    rw [List.foldlM_cons, List.mapM_cons]
    unfold output_run_line_rows_step
    cases hc : output_run_line_row lib seq data columns cache t with
    | error f =>
      rw [hc] at hrow
      simp only [hrow]
      rfl
    | ok r =>
      obtain ⟨cache', row⟩ := r
      rw [hc] at hrow
      obtain ⟨hfresh, hreset'⟩ := hrow
      have hrec := ih cache' (acc ++ [row]) hreset'
      simp only [hfresh]
      show (match List.foldlM (output_run_line_rows_step lib seq data columns)
        (cache', acc ++ [row]) times with
        | .error f => _
        | .ok (_, rows) => _)
      cases hr : List.foldlM (output_run_line_rows_step lib seq data columns)
        (cache', acc ++ [row]) times with
      | error f =>
        rw [hr] at hrec
        simp only [hrec]
        rfl
      | ok r' =>
        obtain ⟨cache'', rows⟩ := r'
        rw [hr] at hrec
        obtain ⟨matrix, hmatrix, hrows⟩ := hrec
        refine ⟨row :: matrix, ?_, by simp [hrows]⟩
        simp only [hmatrix]
        rfl

/-- The cached main loop and the uncached computation agree. -/
theorem main_eq_fresh (hseq : ∀ v q x w, seq v q = .ok (x, w) →
      ∀ q', (seq w q').map Prod.fst = (seq v q').map Prod.fst)
    (ensemble : ensemble_type S) (sum_keys : List cstring) (quantiles : List Q) :
    output_run_line_main lib seq ensemble sum_keys quantiles =
      fresh_matrix lib seq ensemble sum_keys quantiles := by
  have h := rows_spec lib seq ensemble.data hseq (sum_keys.zip quantiles) ensemble.interp_time
    hash_alloc [] (fun k v hk => by simp [hash_alloc] at hk)
  unfold output_run_line_main fresh_matrix
  cases hc : List.foldlM (output_run_line_rows_step lib seq ensemble.data
      (sum_keys.zip quantiles)) (hash_alloc, []) ensemble.interp_time with
  | error f => rw [hc] at h; exact h.symm
  | ok r =>
    obtain ⟨cache, rows⟩ := r
    rw [hc] at h
    obtain ⟨matrix, hmatrix, hrows⟩ := h
    rw [hmatrix, hrows]
    rfl

end cache

/-! ## Lemmas on the reading of a key -/

theorem split_summary_join (key : cstring) :
    util_split_string key SUMMARY_JOIN = key.splitOn ':' := by
  unfold util_split_string SUMMARY_JOIN List.splitOn
  congr 1
  funext c
  by_cases h : c = ':' <;> simp [h]

/-- Joining one more item adds the separator and the item. -/
theorem intercalate_append_singleton (sep : cstring) (l : List cstring) (x : cstring)
    (hl : l ≠ []) : sep.intercalate (l ++ [x]) = sep.intercalate l ++ sep ++ x := by
  induction l with
  | nil => exact absurd rfl hl
  | cons a l ih =>
    cases l with
    | nil => simp [List.intercalate, List.intersperse]
    | cons b l =>
      have := ih (List.cons_ne_nil b l)
      simp only [List.intercalate, List.cons_append, List.intersperse_cons_cons,
        List.flatten_cons] at this ⊢
      rw [this]
      simp

/-- The join of two or more segments contains a colon. -/
theorem mem_intercalate_of_two (segments : List cstring) (h : 2 ≤ segments.length) :
    ':' ∈ SUMMARY_JOIN.intercalate segments := by
  match segments, h with
  | a :: b :: rest, _ =>
    simp [List.intercalate, List.intersperse_cons_cons, SUMMARY_JOIN]

/-- The reading of the join of colon-free segments, by their number and the last of
    them. -/
theorem parse_key_segments {Q : Type} (sscanf : cstring → Option Q)
    (segments : List cstring) (hne : segments ≠ [])
    (hfree : ∀ s ∈ segments, ':' ∉ s) :
    output_run_line_parse_key sscanf (SUMMARY_JOIN.intercalate segments) =
      if segments.length = 1 then .error (.malformed_key (SUMMARY_JOIN.intercalate segments))
      else
        match sscanf (segments.getLast hne) with
        | none => .error (.not_a_quantile (segments.getLast hne))
        | some q => .ok (SUMMARY_JOIN.intercalate segments.dropLast, q) := by
  have hsplit : util_split_string (SUMMARY_JOIN.intercalate segments) SUMMARY_JOIN = segments := by
    rw [split_summary_join]
    exact List.splitOn_intercalate segments ':' hfree hne
  unfold output_run_line_parse_key
  simp only [hsplit]
  by_cases h1 : segments.length = 1
  · simp [h1]
  · simp only [h1, if_false]
    have hlast : segments.get? (segments.length - 1) = some (segments.getLast hne) := by
      rw [List.getLast_eq_getElem]
      simp
    rw [hlast]
    simp only [util_alloc_joined_string, ← List.dropLast_eq_take]



/-- The reading of two or more segments whose last one is read as a number. -/
theorem parse_key_ok {Q : Type} (sscanf : cstring → Option Q)
    (segments : List cstring) (hne : segments ≠ [])
    (hfree : ∀ s ∈ segments, ':' ∉ s) (h2 : 2 ≤ segments.length) (q : Q)
    (hq : sscanf (segments.getLast hne) = some q) :
    output_run_line_parse_key sscanf (SUMMARY_JOIN.intercalate segments) =
      .ok (SUMMARY_JOIN.intercalate segments.dropLast, q) := by
  rw [parse_key_segments sscanf segments hne hfree, if_neg (by omega), hq]

/-- When a traversal succeeds, the result at an index is the result of the function
    on the element at that index. -/
theorem mapM_ok_getElem {α β : Type} (f : α → Except failure β) :
    ∀ (l : List α) (ys : List β), l.mapM f = .ok ys →
      ∀ (i : Nat) (x : α), l[i]? = some x → ∃ y, f x = .ok y ∧ ys[i]? = some y := by
  intro l
  induction l with
  | nil => intro ys _ i x hx; simp at hx
  | cons a l ih =>
    intro ys h i x hx
    rw [List.mapM_cons] at h
    cases hfa : f a with
    | error e => rw [hfa] at h; cases h
    | ok b =>
      rw [hfa] at h
      cases hl : l.mapM f with
      | error e => rw [hl] at h; cases h
      | ok bs =>
        rw [hl] at h
        have hys : ys = b :: bs := by
          cases h; rfl
        subst hys
        cases i with
        | zero =>
          simp at hx
          subst hx
          exact ⟨b, hfa, by simp⟩
        | succ j =>
          simp at hx
          obtain ⟨y, hy, hyj⟩ := ih bs hl j x hx
          exact ⟨y, hy, by simpa using hyj⟩

/-- The order statistic of the worked examples gives the same values on the sorted
    vector it leaves as on the vector it was given. -/
theorem demo_quantile_stable (v : List Int) (q : Nat) (x : Int) (w : List Int)
    (h : demo_quantile v q = .ok (x, w)) (q' : Nat) :
    (demo_quantile w q').map Prod.fst = (demo_quantile v q').map Prod.fst := by
  have hw : w = v.insertionSort (· ≤ ·) := by
    simp only [demo_quantile] at h
    split at h
    · simp only [Except.ok.injEq, Prod.mk.injEq] at h
      exact h.2.symm
    · cases h
  have hsorted : (w.insertionSort (· ≤ ·)) = v.insertionSort (· ≤ ·) := by
    rw [hw]
    exact List.Sorted.insertionSort_eq (List.sorted_insertionSort (· ≤ ·) v)
  unfold demo_quantile
  rw [hsorted]

/-- The decimal reader on 1.5. -/
theorem sscanf_decimal_one_and_a_half : sscanf_decimal "1.5".toList = some (3 / 2) := by
  simp [sscanf_decimal, sscanf_unsigned, digits_value, List.splitOn, List.splitOnP,
    List.splitOnP.go]
  norm_num [Rat.mkRat_eq_div]

/-- The decimal reader on 0.10. -/
theorem sscanf_decimal_one_tenth : sscanf_decimal "0.10".toList = some (1 / 10) := by
  simp [sscanf_decimal, sscanf_unsigned, digits_value, List.splitOn, List.splitOnP,
    List.splitOnP.go]
  norm_num [Rat.mkRat_eq_div]

/-! ## Sample sets and the row cache (C1, C2) -/

/-- C1: for every ensemble, key and timestamp t, the sample set that the loop
    of lines 544-548 builds from an empty vector is the list of the values at t
    of exactly the runs with `start_time <= t <= end_time` (both bounds
    included), one value per such run, in the order of the ensemble. -/
theorem sample_set_is_runs_in_range {S V : Type} (lib : ecl_sum_lib S V)
    (ensemble : ensemble_type S) (sum_key : cstring) (t : Int) :
    output_run_line_fill lib ensemble.data t sum_key [] =
      (ensemble.data.filter fun run => decide (run.start_time ≤ t ∧ t ≤ run.end_time)).map
        fun run => lib.ecl_sum_get_general_var_from_sim_time run.ecl_sum t sum_key := by
  rw [fill_eq_append]
  rfl

/-- C2: let the quantile function be such that the vector it leaves behind
    yields, at every level, the value that the vector it was given yields (it
    may sort in place).  Then the cached main loop of `output_run_line` computes
    exactly the matrix of the uncached computation, failures included; and when
    it returns a matrix, the cell at row r and column c is the quantile at the
    level of column c of the sample set built afresh for the key of column c
    and the timestamp of row r. -/
theorem cached_loop_eq_fresh {S V Q : Type} (lib : ecl_sum_lib S V)
    (statistics_empirical_quantile : List V → Q → Except failure (V × List V))
    (hstable : ∀ v q x w, statistics_empirical_quantile v q = .ok (x, w) →
      ∀ q', (statistics_empirical_quantile w q').map Prod.fst =
        (statistics_empirical_quantile v q').map Prod.fst)
    (ensemble : ensemble_type S) (sum_keys : List cstring) (quantiles : List Q) :
    output_run_line_main lib statistics_empirical_quantile ensemble sum_keys quantiles =
        fresh_matrix lib statistics_empirical_quantile ensemble sum_keys quantiles ∧
      ∀ matrix : List (List V),
        output_run_line_main lib statistics_empirical_quantile ensemble sum_keys quantiles =
            .ok matrix →
          ∀ (r c : Nat) (t : Int) (key : cstring) (q : Q),
            ensemble.interp_time[r]? = some t → (sum_keys.zip quantiles)[c]? = some (key, q) →
              ∃ (value : V) (left : List V) (row : List V),
                statistics_empirical_quantile (fresh_sample_set lib ensemble.data t key) q =
                    .ok (value, left) ∧
                  matrix[r]? = some row ∧ row[c]? = some value := by
  have hmain := main_eq_fresh lib statistics_empirical_quantile hstable ensemble sum_keys quantiles
  refine ⟨hmain, ?_⟩
  intro matrix hm r c t key q hr hc
  rw [hmain] at hm
  obtain ⟨row, hrow, hmr⟩ := mapM_ok_getElem _ _ _ hm r t hr
  obtain ⟨value, hvalue, hrc⟩ := mapM_ok_getElem _ _ _ hrow c (key, q) hc
  unfold fresh_cell at hvalue
  cases hs : statistics_empirical_quantile (fresh_sample_set lib ensemble.data t key) q with
  | error f => simp only [hs] at hvalue; cases hvalue
  | ok p =>
    obtain ⟨x, left⟩ := p
    simp only [hs, Except.ok.injEq] at hvalue
    exact ⟨x, left, row, rfl, hmr, hvalue ▸ hrc⟩

/-- C2 on the four runs of `demo_ensemble`, with the in-place order statistic
    `demo_quantile`, for the columns A at 0, BB at 1 and A at 1: the cached loop
    returns the matrix of the fresh sample sets. -/
theorem cached_loop_eq_fresh_witness :
    output_run_line_main demo_lib demo_quantile demo_ensemble
        ["A".toList, "BB".toList, "A".toList] [0, 1, 1] =
      .ok [[41, 52, 51], [161, 202, 201], [281, 352, 351], [401, 502, 501]] :=
  (cached_loop_eq_fresh demo_lib demo_quantile demo_quantile_stable demo_ensemble
    ["A".toList, "BB".toList, "A".toList] [0, 1, 1]).1.trans (by decide)

/-! ## The reading of a key (C9, C10) -/

/-- C9: a token is the join with ":" of one or more segments free of ":".  It
    contains ":" exactly when there are two segments or more.  With a single
    segment the reading fails (malformed key).  With k segments, k at least 2,
    the reading fails when the last segment is not read as a number, and
    otherwise yields the first k-1 segments joined with ":" as the key and the
    value of the last segment as the level; the key, a ":" and the last segment
    make up the token again. -/
theorem parse_key_of_segments {Q : Type} (util_sscanf_double : cstring → Option Q)
    (segments : List cstring) (hne : segments ≠ [])
    (hfree : ∀ s ∈ segments, ':' ∉ s) :
    (':' ∈ SUMMARY_JOIN.intercalate segments ↔ 2 ≤ segments.length) ∧
      (segments.length = 1 →
        output_run_line_parse_key util_sscanf_double (SUMMARY_JOIN.intercalate segments) =
          .error (.malformed_key (SUMMARY_JOIN.intercalate segments))) ∧
      (2 ≤ segments.length →
        (util_sscanf_double (segments.getLast hne) = none →
          output_run_line_parse_key util_sscanf_double (SUMMARY_JOIN.intercalate segments) =
            .error (.not_a_quantile (segments.getLast hne))) ∧
        (∀ q, util_sscanf_double (segments.getLast hne) = some q →
          output_run_line_parse_key util_sscanf_double (SUMMARY_JOIN.intercalate segments) =
            .ok (SUMMARY_JOIN.intercalate segments.dropLast, q)) ∧
        SUMMARY_JOIN.intercalate segments.dropLast ++ ':' :: segments.getLast hne =
          SUMMARY_JOIN.intercalate segments) := by
  have hparse := parse_key_segments util_sscanf_double segments hne hfree
  refine ⟨⟨?_, mem_intercalate_of_two segments⟩, ?_, ?_⟩
  · intro hmem
    by_contra hlt
    have h1 : segments.length = 1 := by
      have : 0 < segments.length := List.length_pos.2 hne
      omega
    obtain ⟨s, hs⟩ := List.length_eq_one.1 h1
    subst hs
    apply hfree s (List.mem_singleton_self s)
    simpa [List.intercalate] using hmem
  · intro h1
    rw [hparse, if_pos h1]
  · intro h2
    have h1 : ¬ segments.length = 1 := by omega
    rw [hparse, if_neg h1]
    refine ⟨fun hnone => by rw [hnone], fun q hq => by rw [hq], ?_⟩
    have hdrop : segments.dropLast ≠ [] := by
      intro h
      have := congrArg List.length h
      simp at this
      omega
    have := intercalate_append_singleton SUMMARY_JOIN segments.dropLast
      (segments.getLast hne) hdrop
    rw [List.dropLast_append_getLast hne] at this
    rw [this]
    simp [SUMMARY_JOIN]

/-- C9 on the token WWCT:OP_1:0.10, read with the decimal reader: the key is
    WWCT:OP_1 and the level is one tenth. -/
theorem parse_key_of_segments_witness :
    output_run_line_parse_key sscanf_decimal "WWCT:OP_1:0.10".toList =
      .ok ("WWCT:OP_1".toList, 1 / 10) :=
  ((parse_key_of_segments sscanf_decimal ["WWCT".toList, "OP_1".toList, "0.10".toList]
    (by decide) (by decide)).2.2 (by decide)).2.1 (1 / 10) sscanf_decimal_one_tenth

/-- C10, the code at the token FOPT:1.5: the token is read as the key FOPT with
    the level 3/2, which is not below 1, and `output_run_line` goes on to the
    main loop with that level, whatever the ensemble and the quantile function
    are. -/
theorem quantile_level_not_checked {S V : Type} (lib : ecl_sum_lib S V)
    (statistics_empirical_quantile : List V → ℚ → Except failure (V × List V))
    (ensemble : ensemble_type S) (file : cstring) (format : format_type) :
    output_run_line_parse_key sscanf_decimal "FOPT:1.5".toList = .ok ("FOPT".toList, 3 / 2) ∧
      ¬ ((3 / 2 : ℚ) < 1) ∧
      output_run_line lib sscanf_decimal statistics_empirical_quantile
          { keys := ["FOPT:1.5".toList], file := file, format := format } ensemble =
        match output_run_line_main lib statistics_empirical_quantile ensemble
            ["FOPT".toList] [3 / 2] with
        | .error f => .error f
        | .ok data => .ok (["FOPT".toList], [3 / 2], data) := by
  have hkey : output_run_line_parse_key sscanf_decimal "FOPT:1.5".toList =
      .ok ("FOPT".toList, 3 / 2) :=
    parse_key_ok sscanf_decimal ["FOPT".toList, "1.5".toList] (by decide) (by decide)
      (by decide) (3 / 2) sscanf_decimal_one_and_a_half
  refine ⟨hkey, by norm_num, ?_⟩
  unfold output_run_line output_run_line_parse_keys
  rw [List.foldlM_cons]
  unfold output_run_line_parse_step
  rw [hkey]
  rfl

/-! ## Lemmas on the invariant of the bounds and on covered rows -/

section invariant
variable {S V : Type} (lib : ecl_sum_lib S V)

/-- After one more case whose range is in order, start is at most end. -/
theorem add_case_start_le_end (e : ensemble_type S) (f : cstring)
    (hf : (sum_case_fread_alloc lib f).start_time ≤ (sum_case_fread_alloc lib f).end_time) :
    (ensemble_add_case lib e f).start_time ≤ (ensemble_add_case lib e f).end_time := by
  rw [add_case_start_time, add_case_end_time]
  by_cases h : e.start_time > 0
  · rw [if_pos h]
    exact le_trans (min_le_right _ _) (le_trans hf (le_max_right _ _))
  · rw [if_neg h]
    exact le_trans hf (le_max_right _ _)

/-- After any sequence of cases whose ranges are in order, start is at most end. -/
theorem add_cases_start_le_end (files : List cstring)
    (hruns : ∀ f ∈ files,
      (sum_case_fread_alloc lib f).start_time ≤ (sum_case_fread_alloc lib f).end_time) :
    (ensemble_add_cases lib files).start_time ≤ (ensemble_add_cases lib files).end_time := by
  rcases List.eq_nil_or_concat files with rfl | ⟨init, last, rfl⟩
  · simp [ensemble_add_cases, ensemble_alloc]
  · unfold ensemble_add_cases
    rw [List.concat_eq_append, List.foldl_append]
    exact add_case_start_le_end lib _ last (hruns last (by simp))

/-- The start time is the sentinel -1 or the start of an added run. -/
theorem add_cases_start_mem (files : List cstring) :
    (ensemble_add_cases lib files).start_time = -1 ∧ files = [] ∨
      ∃ f ∈ files,
        (ensemble_add_cases lib files).start_time = (sum_case_fread_alloc lib f).start_time := by
  induction files using List.reverseRecOn with
  | nil => left; exact ⟨rfl, rfl⟩
  | append_singleton init last ih =>
    right
    have hstep : (ensemble_add_cases lib (init ++ [last])).start_time =
        (ensemble_add_case lib (ensemble_add_cases lib init) last).start_time := by
      unfold ensemble_add_cases
      rw [List.foldl_append]
      rfl
    rw [hstep, add_case_start_time]
    by_cases h : (ensemble_add_cases lib init).start_time > 0
    · rw [if_pos h]
      rcases min_choice (ensemble_add_cases lib init).start_time
          (sum_case_fread_alloc lib last).start_time with hm | hm
      · rw [hm]
        rcases ih with ⟨h1, -⟩ | ⟨f, hf, hfe⟩
        · omega
        · exact ⟨f, by simp [hf], hfe⟩
      · exact ⟨last, by simp, hm⟩
    · rw [if_neg h]
      exact ⟨last, by simp, rfl⟩

/-- When some added run ends at 0 or later, the end time is the end of an added run. -/
theorem add_cases_end_mem (files : List cstring)
    (hend : ∃ f ∈ files, 0 ≤ (sum_case_fread_alloc lib f).end_time) :
    ∃ f ∈ files,
      (ensemble_add_cases lib files).end_time = (sum_case_fread_alloc lib f).end_time := by
  obtain ⟨-, h3, h4⟩ := foldl_add_case_end lib files (ensemble_alloc : ensemble_type S)
  rcases h4 with h4 | h4
  · obtain ⟨g, hg, hge⟩ := hend
    have := h3 g hg
    have h5 : (ensemble_add_cases lib files).end_time = -1 := h4
    have h6 : (sum_case_fread_alloc lib g).end_time ≤ (ensemble_add_cases lib files).end_time :=
      this
    omega
  · exact h4

/-- A run whose range contains the timestamp makes the fresh sample set non-empty. -/
theorem fresh_sample_set_ne_nil (data : List (sum_case_type S)) (t : Int) (key : cstring)
    (run : sum_case_type S) (hrun : run ∈ data) (h1 : run.start_time ≤ t)
    (h2 : t ≤ run.end_time) : fresh_sample_set lib data t key ≠ [] := by
  unfold fresh_sample_set
  rw [fill_eq_append]
  simp only [List.nil_append, ne_eq, List.map_eq_nil_iff, List.filter_eq_nil_iff, not_forall]
  exact ⟨run, hrun, by simp [h1, h2]⟩

end invariant

/-! ## Lemmas on the empirical quantile and on failing traversals -/

theorem quantile_nil (q : ℚ) : statistics_empirical_quantile [] q = .error .no_run_covers := by
  simp [statistics_empirical_quantile]

/-- The empirical quantile of the sorted samples is that of the samples. -/
theorem quantile_sorted_eq (data : List ℚ) (q : ℚ) :
    (statistics_empirical_quantile (data.insertionSort (· ≤ ·)) q) =
      statistics_empirical_quantile data q := by
  unfold statistics_empirical_quantile
  rw [List.Sorted.insertionSort_eq (List.sorted_insertionSort (· ≤ ·) data)]

/-- What the empirical quantile leaves in the vector is the sorted samples. -/
theorem quantile_left (data : List ℚ) (q x : ℚ) (w : List ℚ)
    (h : statistics_empirical_quantile data q = .ok (x, w)) :
    w = data.insertionSort (· ≤ ·) := by
  simp only [statistics_empirical_quantile] at h
  split at h
  · cases h
  · split at h
    · simp only [Except.ok.injEq, Prod.mk.injEq] at h
      exact h.2.symm
    · cases h

/-- The empirical quantile gives the same values on the vector it leaves as on the
    vector it was given. -/
theorem quantile_stable (v : List ℚ) (q x : ℚ) (w : List ℚ)
    (h : statistics_empirical_quantile v q = .ok (x, w)) (q' : ℚ) :
    (statistics_empirical_quantile w q').map Prod.fst =
      (statistics_empirical_quantile v q').map Prod.fst := by
  rw [quantile_left v q x w h, quantile_sorted_eq]

/-- An index within the vector has an entry. -/
theorem double_vector_iget_of_lt (vector : List ℚ) (index : Int) (h0 : 0 ≤ index)
    (h1 : index < vector.length) : ∃ x, double_vector_iget vector index = some x := by
  have h2 : index.toNat < vector.length := by omega
  exact ⟨vector[index.toNat], by simp [double_vector_iget, h0, h2]⟩

/-- On one sample or more and a level in [0,1] the empirical quantile returns. -/
theorem quantile_ok_of_level (data : List ℚ) (q : ℚ) (hne : data ≠ []) (h0 : 0 ≤ q)
    (h1 : q ≤ 1) : ∃ r, statistics_empirical_quantile data q = .ok r := by
  have hlen : (data.insertionSort (· ≤ ·)).length = data.length := List.length_insertionSort _ _
  have hpos : 0 < data.length := List.length_pos.2 hne
  have hn : (1 : ℚ) ≤ (data.length : ℚ) := by exact_mod_cast hpos
  have hrank0 : 0 ≤ q * ((data.length : ℚ) - 1) := mul_nonneg h0 (by linarith)
  have hrank1 : q * ((data.length : ℚ) - 1) ≤ (data.length : ℚ) - 1 := by
    have : q * ((data.length : ℚ) - 1) ≤ 1 * ((data.length : ℚ) - 1) :=
      mul_le_mul_of_nonneg_right h1 (by linarith)
    linarith
  have hcast : ((data.length : ℚ) - 1) = (((data.length : Int) - 1 : Int) : ℚ) := by push_cast; rfl
  have hlo0 : 0 ≤ ⌊q * ((data.length : ℚ) - 1)⌋ := Int.floor_nonneg.2 hrank0
  have hhi0 : 0 ≤ ⌈q * ((data.length : ℚ) - 1)⌉ := Int.ceil_nonneg hrank0
  have hhi1 : ⌈q * ((data.length : ℚ) - 1)⌉ ≤ (data.length : Int) - 1 := by
    rw [Int.ceil_le, ← hcast]; exact hrank1
  have hlo1 : ⌊q * ((data.length : ℚ) - 1)⌋ ≤ (data.length : Int) - 1 :=
    le_trans (Int.floor_le_ceil _) hhi1
  obtain ⟨a, ha⟩ := double_vector_iget_of_lt (data.insertionSort (· ≤ ·))
    ⌊q * ((data.length : ℚ) - 1)⌋ hlo0 (by rw [hlen]; omega)
  obtain ⟨b, hb⟩ := double_vector_iget_of_lt (data.insertionSort (· ≤ ·))
    ⌈q * ((data.length : ℚ) - 1)⌉ hhi0 (by rw [hlen]; omega)
  have hn0 : data.length ≠ 0 := by omega
  simp only [statistics_empirical_quantile, hlen, hn0, if_false, ha, hb]
  exact ⟨_, rfl⟩

/-- At a level in [0,1] the empirical quantile fails only for want of samples. -/
theorem quantile_error_of_level (data : List ℚ) (q : ℚ) (f : failure) (h0 : 0 ≤ q)
    (h1 : q ≤ 1) (h : statistics_empirical_quantile data q = .error f) :
    f = .no_run_covers := by
  by_cases hne : data = []
  · subst hne
    rw [quantile_nil] at h
    cases h
    rfl
  · obtain ⟨r, hr⟩ := quantile_ok_of_level data q hne h0 h1
    rw [hr] at h
    cases h

/-- A traversal fails when the function fails on one of the elements. -/
theorem mapM_error_of_getElem {α β : Type} (f : α → Except failure β) :
    ∀ (l : List α) (i : Nat) (x : α) (e : failure), l[i]? = some x → f x = .error e →
      ∃ e', l.mapM f = .error e' := by
  intro l
  induction l with
  | nil => intro i x e hx; simp at hx
  | cons a l ih =>
    intro i x e hx hfx
    rw [List.mapM_cons]
    cases hfa : f a with
    | error e' => exact ⟨e', rfl⟩
    | ok b =>
      cases i with
      | zero =>
        simp at hx
        subst hx
        rw [hfa] at hfx
        cases hfx
      | succ j =>
        simp at hx
        obtain ⟨e', he'⟩ := ih j x e hx hfx
        rw [he']
        exact ⟨e', rfl⟩

/-- The failure of a traversal is the failure of the function on one of the
    elements. -/
theorem mapM_error_source {α β : Type} (f : α → Except failure β) :
    ∀ (l : List α) (e : failure), l.mapM f = .error e → ∃ x ∈ l, f x = .error e := by
  intro l
  induction l with
  | nil => intro e h; cases h
  | cons a l ih =>
    intro e h
    rw [List.mapM_cons] at h
    cases hfa : f a with
    | error e' =>
      rw [hfa] at h
      cases h
      exact ⟨a, by simp, hfa⟩
    | ok b =>
      rw [hfa] at h
      cases hl : l.mapM f with
      | error e' =>
        obtain ⟨x, hx, hfx⟩ := ih e' hl
        rw [hl] at h
        cases h
        exact ⟨x, by simp [hx], hfx⟩
      | ok bs =>
        rw [hl] at h
        cases h


/-! ## Lemmas on the run over the table of outputs -/

/-- The outputs before a failing one are written, the run ends at the failing one. -/
theorem run_entries_stops {S V Q : Type} (lib : ecl_sum_lib S V)
    (sscanf : cstring → Option Q) (seq : List V → Q → Except failure (V × List V))
    (ensemble : ensemble_type S) (bad : cstring × output_type)
    (after : List (cstring × output_type)) (f : failure)
    (hbad : output_run_line lib sscanf seq bad.2 ensemble = .error f) :
    ∀ before : List (cstring × output_type),
      (∀ entry ∈ before, ∃ r, output_run_line lib sscanf seq entry.2 ensemble = .ok r) →
        (output_table_run_entries lib sscanf seq ensemble (before ++ bad :: after)).2 = some f ∧
          (output_table_run_entries lib sscanf seq ensemble (before ++ bad :: after)).1.map
              (fun saved => saved.file) =
            before.map fun entry => entry.2.file := by
  intro before
  induction before with
  | nil =>
    intro _
    simp [output_table_run_entries, hbad]
  | cons entry before ih =>
    intro hbefore
    obtain ⟨r, hr⟩ := hbefore entry (by simp)
    obtain ⟨sum_keys, quantiles, data⟩ := r
    obtain ⟨h1, h2⟩ := ih (fun e he => hbefore e (by simp [he]))
    simp only [List.cons_append, output_table_run_entries, hr, List.map_cons]
    exact ⟨h1, congrArg (List.cons entry.2.file) h2⟩

/-- The loop over the keys stops at the first key that is not read. -/
theorem parse_keys_stops {Q : Type} (sscanf : cstring → Option Q) (tok : cstring)
    (post : List cstring) (f : failure)
    (htok : output_run_line_parse_key sscanf tok = .error f) :
    ∀ (pre : List cstring) (acc : List cstring × List Q),
      (∀ k ∈ pre, ∃ r, output_run_line_parse_key sscanf k = .ok r) →
        (pre ++ tok :: post).foldlM (output_run_line_parse_step sscanf) acc = .error f := by
  intro pre
  induction pre with
  | nil =>
    intro acc _
    simp only [List.nil_append, List.foldlM_cons, output_run_line_parse_step, htok]
    rfl
  | cons k pre ih =>
    intro acc hpre
    obtain ⟨r, hr⟩ := hpre k (by simp)
    obtain ⟨sum_key, quantile⟩ := r
    simp only [List.cons_append, List.foldlM_cons, output_run_line_parse_step, hr]
    exact ih _ (fun k' hk' => hpre k' (by simp [hk']))

/-- When the keys are not read, `output_run_line` ends with that failure and
    computes no matrix. -/
theorem run_line_of_parse_error {S V Q : Type} (lib : ecl_sum_lib S V)
    (sscanf : cstring → Option Q) (seq : List V → Q → Except failure (V × List V))
    (ensemble : ensemble_type S) (output : output_type) (f : failure)
    (h : output_run_line_parse_keys sscanf output.keys = .error f) :
    output_run_line lib sscanf seq output ensemble = .error f := by
  unfold output_run_line
  rw [h]


/-! ## Malformed tokens and the table of outputs (C11) -/

/-- C11, refuted as stated: in the scenario of twelve runs, with the outputs
    GOOD (X:0.50) and BAD (the token FOPT, without a colon), the output GOOD is
    computed and written before the malformed token of BAD ends the run.  This
    is shown for a table iterated in the order of insertion and, with the two
    OUTPUT lines exchanged, for a table iterated in the reverse order. -/
theorem malformed_key_late_counterexample :
    main scenario_lib scenario_glob sscanf_decimal statistics_empirical_quantile
        (fun output_table => output_table)
        (scenario_config [["GOOD", "PLAIN", "X:0.50"], ["BAD", "HEADER", "FOPT"]]) =
      ([{ file := "GOOD".toList, format := .PLAIN, ecl_keys := ["X".toList],
          quantiles := [1 / 2], data := [[55], [55]] }],
        some (.malformed_key "FOPT".toList)) ∧
    main scenario_lib scenario_glob sscanf_decimal statistics_empirical_quantile
        List.reverse
        (scenario_config [["BAD", "HEADER", "FOPT"], ["GOOD", "PLAIN", "X:0.50"]]) =
      ([{ file := "GOOD".toList, format := .PLAIN, ecl_keys := ["X".toList],
          quantiles := [1 / 2], data := [[55], [55]] }],
        some (.malformed_key "FOPT".toList)) := by
  decide!

/-- C11, as amended: a token that is not read is found when `output_run_line`
    works on the output it belongs to.  Let the ensemble be initialised and the
    table of outputs be filled, let the iteration visit the outputs `before`,
    which all run through, then the output `bad`, whose keys are read up to a
    token `tok` that is not read (failure `f`).  Then `output_run_line` on
    `bad` ends with `f` without a matrix, the run of the program ends with `f`,
    and the files written are exactly those of the outputs visited before. -/
theorem malformed_key_found_at_its_output {S V Q : Type} (lib : ecl_sum_lib S V)
    (glob : cstring → List cstring) (util_sscanf_double : cstring → Option Q)
    (statistics_empirical_quantile : List V → Q → Except failure (V × List V))
    (hash_iter : output_table_type → List (cstring × output_type))
    (config : config_type) (ensemble : ensemble_type S) (output_table : output_table_type)
    (before after : List (cstring × output_type)) (file : cstring) (bad : output_type)
    (pre post : List cstring) (tok : cstring) (f : failure)
    (hinit : ensemble_init lib glob ensemble_alloc config = .ok ensemble)
    (htable : output_table_init [] config = .ok output_table)
    (horder : hash_iter output_table = before ++ (file, bad) :: after)
    (hbefore : ∀ entry ∈ before, ∃ r,
      output_run_line lib util_sscanf_double statistics_empirical_quantile entry.2 ensemble =
        .ok r)
    (hkeys : bad.keys = pre ++ tok :: post)
    (hpre : ∀ k ∈ pre, ∃ r, output_run_line_parse_key util_sscanf_double k = .ok r)
    (htok : output_run_line_parse_key util_sscanf_double tok = .error f) :
    output_run_line lib util_sscanf_double statistics_empirical_quantile bad ensemble =
        .error f ∧
      (main lib glob util_sscanf_double statistics_empirical_quantile hash_iter config).2 =
        some f ∧
      (main lib glob util_sscanf_double statistics_empirical_quantile hash_iter config).1.map
          (fun saved => saved.file) =
        before.map fun entry => entry.2.file := by
  have hbad : output_run_line lib util_sscanf_double statistics_empirical_quantile bad
      ensemble = .error f := by
    apply run_line_of_parse_error
    unfold output_run_line_parse_keys
    rw [hkeys]
    exact parse_keys_stops util_sscanf_double tok post f htok pre _ hpre
  have hrun := run_entries_stops lib util_sscanf_double statistics_empirical_quantile ensemble
    (file, bad) after f hbad before hbefore
  refine ⟨hbad, ?_, ?_⟩
  · simp only [main, hinit, htable, output_table_run, horder]
    exact hrun.1
  · simp only [main, hinit, htable, output_table_run, horder]
    exact hrun.2

/-- The amended C11 in the scenario, with the outputs GOOD and BAD visited in
    this order: the run ends with the malformed key FOPT after the file GOOD
    was written. -/
theorem malformed_key_found_at_its_output_witness :
    (main scenario_lib scenario_glob sscanf_decimal statistics_empirical_quantile
        (fun output_table => output_table)
        (scenario_config [["GOOD", "PLAIN", "X:0.50"], ["BAD", "HEADER", "FOPT"]])).2 =
      some (.malformed_key "FOPT".toList) ∧
    (main scenario_lib scenario_glob sscanf_decimal statistics_empirical_quantile
        (fun output_table => output_table)
        (scenario_config [["GOOD", "PLAIN", "X:0.50"], ["BAD", "HEADER", "FOPT"]])).1.map
        (fun saved => saved.file) =
      ["GOOD".toList] :=
  (malformed_key_found_at_its_output scenario_lib scenario_glob sscanf_decimal
    statistics_empirical_quantile (fun output_table => output_table)
    (scenario_config [["GOOD", "PLAIN", "X:0.50"], ["BAD", "HEADER", "FOPT"]])
    scenario_ensemble [("GOOD".toList, scenario_good), ("BAD".toList, scenario_bad)]
    [("GOOD".toList, scenario_good)] [] "BAD".toList scenario_bad [] [] "FOPT".toList
    (.malformed_key "FOPT".toList) (by decide) (by decide) rfl
    (fun entry h => by
      rw [List.mem_singleton] at h
      subst h
      exact ⟨(["X".toList], [1 / 2], [[55], [55]]), by decide!⟩)
    rfl (fun k h => absurd h (List.not_mem_nil k)) (by decide)).2

/-! ## Rows that no run covers (C12) -/

/-- C12: with the empirical quantile of the specification, if for the key of
    some column and the timestamp of some row no run of the ensemble covers the
    timestamp (the fresh sample set is empty), the main loop of
    `output_run_line` ends with a failure and returns no matrix, hence no value
    for that cell; when every requested level lies in [0,1] the failure is "no
    run covers this timestamp for this variable". -/
theorem empty_sample_set_ends_the_run {S : Type} (lib : ecl_sum_lib S ℚ)
    (ensemble : ensemble_type S) (sum_keys : List cstring) (quantiles : List ℚ)
    (r c : Nat) (t : Int) (key : cstring) (q : ℚ)
    (hr : ensemble.interp_time[r]? = some t)
    (hc : (sum_keys.zip quantiles)[c]? = some (key, q))
    (hempty : fresh_sample_set lib ensemble.data t key = []) :
    ∃ f : failure,
      output_run_line_main lib statistics_empirical_quantile ensemble sum_keys quantiles =
          .error f ∧
        ((∀ level ∈ quantiles, 0 ≤ level ∧ level ≤ 1) → f = .no_run_covers) := by
  rw [main_eq_fresh lib statistics_empirical_quantile quantile_stable ensemble sum_keys
    quantiles]
  have hcell : fresh_cell lib statistics_empirical_quantile ensemble.data t (key, q) =
      .error .no_run_covers := by
    unfold fresh_cell
    simp only [hempty, quantile_nil]
  obtain ⟨e1, he1⟩ := mapM_error_of_getElem
    (fresh_cell lib statistics_empirical_quantile ensemble.data t)
    (sum_keys.zip quantiles) c (key, q) _ hc hcell
  obtain ⟨f, hf⟩ := mapM_error_of_getElem
    (fun t => (sum_keys.zip quantiles).mapM
      (fresh_cell lib statistics_empirical_quantile ensemble.data t))
    ensemble.interp_time r t e1 hr he1
  refine ⟨f, hf, ?_⟩
  intro hlevels
  obtain ⟨t', -, ht'⟩ := mapM_error_source _ _ f hf
  obtain ⟨column, hcolumn, hfail⟩ := mapM_error_source _ _ f ht'
  have hlevel := hlevels column.2 (List.of_mem_zip hcolumn).2
  unfold fresh_cell at hfail
  cases hs : statistics_empirical_quantile
      (fresh_sample_set lib ensemble.data t' column.1) column.2 with
  | error g =>
    simp only [hs] at hfail
    cases hfail
    exact quantile_error_of_level _ _ _ hlevel.1 hlevel.2 hs
  | ok p =>
    simp only [hs] at hfail
    cases hfail

/-- C12 on `gap_ensemble`, whose middle timestamp 55 no run covers, for the
    median of X: the main loop ends with "no run covers". -/
theorem empty_sample_set_ends_the_run_witness :
    ∃ f : failure,
      output_run_line_main gap_lib statistics_empirical_quantile gap_ensemble
          ["X".toList] [1 / 2] = .error f ∧ f = .no_run_covers := by
  obtain ⟨f, hf, hlevel⟩ := empty_sample_set_ends_the_run gap_lib gap_ensemble ["X".toList]
    [1 / 2] 1 0 55 "X".toList (1 / 2) rfl rfl (by decide)
  refine ⟨f, hf, hlevel ?_⟩
  intro level hmem
  rw [List.mem_singleton] at hmem
  subst hmem
  constructor <;> norm_num

/-! ## The invariant of the bounds (C13) -/

/-- C13: for every sequence of runs that each start no later than they end,
    the ensemble start time is at most its end time after every
    `ensemble_add_case`, that is for every prefix of the sequence, the empty
    prefix (the freshly allocated ensemble) included. -/
theorem ensemble_start_le_end {S V : Type} (lib : ecl_sum_lib S V) (files : List cstring)
    (hruns : ∀ f ∈ files,
      (sum_case_fread_alloc lib f).start_time ≤ (sum_case_fread_alloc lib f).end_time)
    (n : Nat) :
    (ensemble_add_cases lib (files.take n)).start_time ≤
      (ensemble_add_cases lib (files.take n)).end_time :=
  add_cases_start_le_end lib (files.take n) fun f hf => hruns f (List.mem_of_mem_take hf)

/-- C13 on the runs OLD, EARLY and LATE, after the second and after the third
    addition. -/
theorem ensemble_start_le_end_witness :
    (ensemble_add_cases demo_lib ["OLD".toList, "EARLY".toList]).start_time ≤
        (ensemble_add_cases demo_lib ["OLD".toList, "EARLY".toList]).end_time ∧
      (ensemble_add_cases demo_lib ["OLD".toList, "EARLY".toList, "LATE".toList]).start_time ≤
        (ensemble_add_cases demo_lib ["OLD".toList, "EARLY".toList, "LATE".toList]).end_time :=
  ⟨ensemble_start_le_end demo_lib ["OLD".toList, "EARLY".toList, "LATE".toList]
      (by decide) 2,
    ensemble_start_le_end demo_lib ["OLD".toList, "EARLY".toList, "LATE".toList]
      (by decide) 3⟩

/-! ## The end-to-end scenario (C14) -/

/-- C14: twelve runs with the range 0 to 100, run i with the constant value
    10 i for X, and NUM_INTERP 2.  `ensemble_init` succeeds with the bounds 0
    and 100 and the time axis 0, 100; at both timestamps the sample set of X
    holds the values of all twelve runs; and the program, with the request
    X:0.50 and the empirical quantile of the specification, writes one output
    whose matrix has the value 55 in both rows. -/
theorem scenario_median :
    (ensemble_init scenario_lib scenario_glob ensemble_alloc
        (scenario_config [["OUT", "PLAIN", "X:0.50"]])).map
        (fun e => (e.start_time, e.end_time, e.interp_time,
          e.interp_time.map fun t => fresh_sample_set scenario_lib e.data t "X".toList)) =
      .ok (0, 100, [0, 100],
        [[0, 10, 20, 30, 40, 50, 60, 70, 80, 90, 100, 110],
         [0, 10, 20, 30, 40, 50, 60, 70, 80, 90, 100, 110]]) ∧
    main scenario_lib scenario_glob sscanf_decimal statistics_empirical_quantile
        (fun output_table => output_table)
        (scenario_config [["OUT", "PLAIN", "X:0.50"]]) =
      ([{ file := "OUT".toList, format := .PLAIN, ecl_keys := ["X".toList],
          quantiles := [1 / 2], data := [[55], [55]] }], none) := by
  decide!

/-! ## The first and the last row are covered (C15) -/

/-- C15, refuted as stated: a single run from 0 to 3 * 2^61 and N = 3.  The
    product `2 * (end_time - start_time)` of line 105 leaves the 64-bit range,
    the time axis is 0, 3 * 2^60, -2^61, and at its last entry -2^61 no run
    covers the timestamp: the sample set of X is empty. -/
theorem last_row_uncovered_counterexample :
    (ensemble_init_time_interp (ensemble_with_num_interp huge_lib ["HUGE".toList] 3)).map
        (fun e => (e.start_time, e.end_time, e.interp_time,
          e.interp_time.map fun t => fresh_sample_set huge_lib e.data t "X".toList)) =
      .ok (0, 6917529027641081856, [0, 3458764513820540928, -2305843009213693952],
        [[1], [1], []]) := by
  decide

/-- C15, as amended: for one or more runs with `0 <= start_time <= end_time`
    whose end times are `time_t` values, and a point count N of 2 or more with
    `(N - 1) * (end_time - start_time) < 2^63` for the bounds of the ensemble,
    so that no product of line 105 overflows: the ensemble start time is the
    start time of an added run and the end time is the end time of an added
    run; the time axis is built, its first entry is the start time and its
    entry N-1 the end time; and for every key the sample sets at these two
    timestamps are not empty. -/
theorem first_and_last_row_covered {S V : Type} (lib : ecl_sum_lib S V)
    (files : List cstring) (hne : files ≠ [])
    (hruns : ∀ f ∈ files, 0 ≤ (sum_case_fread_alloc lib f).start_time ∧
      (sum_case_fread_alloc lib f).start_time ≤ (sum_case_fread_alloc lib f).end_time)
    (hends : ∀ f ∈ files, (sum_case_fread_alloc lib f).end_time < 2 ^ 63)
    (N : Int) (hN : 2 ≤ N)
    (hfit : (N - 1) * ((ensemble_with_num_interp lib files N).end_time -
      (ensemble_with_num_interp lib files N).start_time) < 2 ^ 63)
    (key : cstring) :
    (∃ f ∈ files, (ensemble_with_num_interp lib files N).start_time =
        (sum_case_fread_alloc lib f).start_time) ∧
      (∃ f ∈ files, (ensemble_with_num_interp lib files N).end_time =
        (sum_case_fread_alloc lib f).end_time) ∧
      ∃ result : ensemble_type S,
        ensemble_init_time_interp (ensemble_with_num_interp lib files N) = .ok result ∧
          result.interp_time[0]? = some (ensemble_with_num_interp lib files N).start_time ∧
          result.interp_time[N.toNat - 1]? =
            some (ensemble_with_num_interp lib files N).end_time ∧
          fresh_sample_set lib result.data (ensemble_with_num_interp lib files N).start_time
              key ≠ [] ∧
          fresh_sample_set lib result.data (ensemble_with_num_interp lib files N).end_time
              key ≠ [] := by
  have hstart : ∃ f ∈ files, (ensemble_add_cases lib files).start_time =
      (sum_case_fread_alloc lib f).start_time := by
    rcases add_cases_start_mem lib files with ⟨-, h⟩ | h
    · exact absurd h hne
    · exact h
  have hend : ∃ f ∈ files, (ensemble_add_cases lib files).end_time =
      (sum_case_fread_alloc lib f).end_time := by
    obtain ⟨g, fs, hg⟩ := List.exists_cons_of_ne_nil hne
    have hgm : g ∈ files := by rw [hg]; simp
    exact add_cases_end_mem lib files ⟨g, hgm, le_trans (hruns g hgm).1 (hruns g hgm).2⟩
  have hdata : (ensemble_add_cases lib files).data = files.map (sum_case_fread_alloc lib) := by
    have := (foldl_add_case_fields lib files (ensemble_alloc : ensemble_type S)).1
    simpa [ensemble_add_cases, ensemble_alloc] using this
  have hit : (ensemble_with_num_interp lib files N).interp_time = [] :=
    (foldl_add_case_fields lib files (ensemble_alloc : ensemble_type S)).2.1
  have hnum : (ensemble_with_num_interp lib files N).num_interp = N := rfl
  have hle : (ensemble_with_num_interp lib files N).start_time ≤
      (ensemble_with_num_interp lib files N).end_time :=
    add_cases_start_le_end lib files fun f hf => (hruns f hf).2
  have hts : is_time_t (ensemble_with_num_interp lib files N).start_time := by
    obtain ⟨f, hf, hfe⟩ := hstart
    have h1 := hruns f hf
    have h2 := hends f hf
    norm_num at h2
    have h3 : (ensemble_with_num_interp lib files N).start_time =
        (sum_case_fread_alloc lib f).start_time := hfe
    unfold is_time_t
    omega
  have hte : is_time_t (ensemble_with_num_interp lib files N).end_time := by
    obtain ⟨f, hf, hfe⟩ := hend
    have h1 := hruns f hf
    have h2 := hends f hf
    norm_num at h2
    have h3 : (ensemble_with_num_interp lib files N).end_time =
        (sum_case_fread_alloc lib f).end_time := hfe
    unfold is_time_t
    omega
  refine ⟨hstart, hend, _, init_time_interp_ok _ (by rw [hnum]; omega), ?_, ?_, ?_, ?_⟩
  · have h0 : 0 < N.toNat := by omega
    simp [hit, hnum, List.getElem?_range, h0, time_axis_entry_zero _ hts]
  · have h1 : N.toNat - 1 < N.toNat := by omega
    have hlast := time_axis_entry_last (ensemble_with_num_interp lib files N)
      (by rw [hnum]; exact hN) hts hte hle hfit
    rw [hnum] at hlast
    simp [hit, hnum, List.getElem?_range, h1, hlast]
  · obtain ⟨f, hf, hfe⟩ := hstart
    refine fresh_sample_set_ne_nil lib _ _ key (sum_case_fread_alloc lib f) ?_ ?_ ?_
    · show sum_case_fread_alloc lib f ∈ (ensemble_add_cases lib files).data
      rw [hdata]
      exact List.mem_map_of_mem _ hf
    · exact le_of_eq hfe.symm
    · exact le_trans (le_of_eq hfe) (hruns f hf).2
  · obtain ⟨f, hf, hfe⟩ := hend
    refine fresh_sample_set_ne_nil lib _ _ key (sum_case_fread_alloc lib f) ?_ ?_ ?_
    · show sum_case_fread_alloc lib f ∈ (ensemble_add_cases lib files).data
      rw [hdata]
      exact List.mem_map_of_mem _ hf
    · exact le_trans (hruns f hf).2 (le_of_eq hfe.symm)
    · exact le_of_eq hfe

/-- The amended C15 on SHORT (10 to 20) and TAIL (80 to 100) in `gap_lib` with
    three points: the axis starts at 10 and ends at 100, and the sample sets of
    X there are not empty (the one at 55 is). -/
theorem first_and_last_row_covered_witness :
    ∃ result : ensemble_type (Int × Int),
      ensemble_init_time_interp
          (ensemble_with_num_interp gap_lib ["SHORT".toList, "TAIL".toList] 3) = .ok result ∧
        result.interp_time[0]? =
          some (ensemble_with_num_interp gap_lib ["SHORT".toList, "TAIL".toList] 3).start_time ∧
        result.interp_time[(3 : Int).toNat - 1]? =
          some (ensemble_with_num_interp gap_lib ["SHORT".toList, "TAIL".toList] 3).end_time ∧
        fresh_sample_set gap_lib result.data
            (ensemble_with_num_interp gap_lib ["SHORT".toList, "TAIL".toList] 3).start_time
            "X".toList ≠ [] ∧
        fresh_sample_set gap_lib result.data
            (ensemble_with_num_interp gap_lib ["SHORT".toList, "TAIL".toList] 3).end_time
            "X".toList ≠ [] :=
  (first_and_last_row_covered gap_lib ["SHORT".toList, "TAIL".toList] (by decide) (by decide)
    (by decide) 3 (by decide) (by decide) "X".toList).2.2

end EclQuantile
